import Mathlib

/-!
Shallow embedding of the `universal_timestamp` C library
(src/src/ut_calendar.c, src/src/ut_format.c, src/src/ut_now.c,
src/core/ut_date.c and src/core/ut_parse.c, the latter two provided as
unnamed parts of the repository).

Conventions of the embedding:
* C `int64_t`/`int` values are modelled as `Int`.  All arithmetic that the
  verified claims exercise stays inside the `int64_t` range, where C and
  mathematical integer arithmetic agree, so no wrap-around is modelled.
* C truncating division `/` and remainder `%` are modelled by `Int.tdiv`
  and `Int.tmod`.
* C strings are modelled as `List Char`; a possibly-NULL `const char *`
  argument is an `Option (List Char)`; pointer arithmetic `str + k`
  becomes `List.drop k`; `str[i]` becomes `getc` (with the NUL terminator
  as the out-of-range default, as in a C string buffer).
* The two unbounded `while` loops of `ut_internal_from_nanos` are given
  explicit fuel that provably dominates their iteration count (one year
  consumes at least 365 days, one month at least 28 days), keeping every
  definition executable; on all inputs the fuel suffices, so the
  definitions agree with the C loops everywhere the C loops terminate.
-/

/-- Error codes of `ut_error_t` from include/universal_timestamp.h. -/
inductive ut_error_t where
  | UT_OK
  | UT_ERR_INVALID_FORMAT
  | UT_ERR_INVALID_DATE
  | UT_ERR_OUT_OF_RANGE
  | UT_ERR_UNSUPPORTED_OFFSET
  | UT_ERR_FRACTION_TOO_LONG
  | UT_ERR_LEAP_SECOND
  | UT_ERR_NULL_POINTER
deriving DecidableEq, Repr

open ut_error_t

/-- Broken-down time: the seven `int` out-parameters of `ut_internal_from_nanos`. -/
structure Broken where
  year : Int
  month : Int
  day : Int
  hour : Int
  minute : Int
  second : Int
  frac : Int
deriving DecidableEq, Repr

/-- Gregorian leap-year rule, from `ut_internal_is_leap_year` in ut_date.c:
`(year % 4 == 0 && year % 100 != 0) || (year % 400 == 0)`. -/
def ut_internal_is_leap_year (year : Int) : Bool :=
  (year.tmod 4 == 0 && year.tmod 100 != 0) || year.tmod 400 == 0

/-- The `DAYS_IN_MONTH` table from ut_date.c (index 0 unused). -/
def DAYS_IN_MONTH : List Int := [0, 31, 28, 31, 30, 31, 30, 31, 31, 30, 31, 30, 31]

/-- Days in a month, from `ut_internal_days_in_month` in ut_date.c. -/
def ut_internal_days_in_month (year month : Int) : Int :=
  if month < 1 || month > 12 then 0
  else if month == 2 && ut_internal_is_leap_year year then 29
  else DAYS_IN_MONTH.getD month.toNat 0

/-- Calendar-date validation, from `ut_internal_validate_date` in ut_date.c. -/
def ut_internal_validate_date (year month day : Int) : Bool :=
  if year < 0 || year > 9999 then false
  else if month < 1 || month > 12 then false
  else if day < 1 || day > ut_internal_days_in_month year month then false
  else true

/-- Length of a year in days: `ut_internal_is_leap_year(y) ? 366 : 365`. -/
def yearLen (y : Int) : Int :=
  if ut_internal_is_leap_year y then 366 else 365

/-- Sum of the lengths of the `k` consecutive years `start, start+1, ...,
start+k-1`.  This is the accumulator of both year loops of
`days_from_epoch` in ut_date.c. -/
def sumYearsFrom (start : Int) : Nat → Int
  | 0 => 0
  | k + 1 => sumYearsFrom start k + yearLen (start + k)

/-- Sum of the lengths of the first `k` months of year `y`.  This is the
accumulator of the month loop of `days_from_epoch` (and of the
day-of-year loop of `ut_to_iso_week`). -/
def monthsSum (y : Int) : Nat → Int
  | 0 => 0
  | k + 1 => monthsSum y k + ut_internal_days_in_month y (k + 1)

/-- Days from the epoch 1970-01-01 to the given date, from
`days_from_epoch` in ut_date.c: a year-by-year walk (forward from 1970
when `year >= 1970`, else backward), then a month walk, then `day - 1`. -/
def days_from_epoch (year month day : Int) : Int :=
  (if year ≥ 1970 then sumYearsFrom 1970 (year - 1970).toNat
   else -(sumYearsFrom year (1970 - year).toNat))
  + monthsSum year (month - 1).toNat + day - 1

/-- Broken-down time to nanoseconds since the epoch, from
`ut_internal_to_nanos` in ut_date.c. -/
def ut_internal_to_nanos (year month day hour minute second frac_nanos : Int) : Int :=
  let days := days_from_epoch year month day
  let seconds := days * 86400 + hour * 3600 + minute * 60 + second
  seconds * 1000000000 + frac_nanos

/-- The forward year walk of `ut_internal_from_nanos`
(`while (1) { if (days < days_in_year) break; days -= days_in_year; y++; }`),
with explicit fuel; each iteration consumes at least 365 days. -/
def yearWalkFwd : Nat → Int → Int → Int × Int
  | 0, y, days => (y, days)
  | fuel + 1, y, days =>
    if days ≥ yearLen y then yearWalkFwd fuel (y + 1) (days - yearLen y) else (y, days)

/-- The backward year walk of `ut_internal_from_nanos`
(`while (days < 0) { y--; days += days_in_year; }`), with explicit fuel. -/
def yearWalkBwd : Nat → Int → Int → Int × Int
  | 0, y, days => (y, days)
  | fuel + 1, y, days =>
    if days < 0 then yearWalkBwd fuel (y - 1) (days + yearLen (y - 1)) else (y, days)

/-- The month walk of `ut_internal_from_nanos`
(`while (1) { if (days < days_in_month) break; days -= days_in_month; m++; }`).
Starting from month 1 with fewer than a year's worth of days remaining it
stops within 12 iterations, so fuel 12 reproduces the C loop exactly. -/
def monthWalk : Nat → Int → Nat → Int → Nat × Int
  | 0, _, m, days => (m, days)
  | fuel + 1, y, m, days =>
    if days < ut_internal_days_in_month y m then (m, days)
    else monthWalk fuel y (m + 1) (days - ut_internal_days_in_month y m)

/-- The day-count to (year, month, day) resolution of
`ut_internal_from_nanos` (the `y`, `m`, `*day` part of lines 131-157 of
ut_date.c). -/
def civilFromDays (days : Int) : Int × Nat × Int :=
  let yd := if days ≥ 0 then yearWalkFwd (days.toNat + 1) 1970 days
            else yearWalkBwd ((-days).toNat + 1) 1970 days
  let md := monthWalk 12 yd.1 1 yd.2
  (yd.1, md.1, md.2 + 1)

/-- Nanoseconds since the epoch to broken-down time, from
`ut_internal_from_nanos` in ut_date.c. -/
def ut_internal_from_nanos (nanos : Int) : Broken :=
  let ts0 := nanos.tdiv 1000000000
  let r0 := nanos.tmod 1000000000
  let tr := if r0 < 0 then (ts0 - 1, r0 + 1000000000) else (ts0, r0)
  let days0 := tr.1.tdiv 86400
  let ds0 := tr.1.tmod 86400
  let dd := if ds0 < 0 then (days0 - 1, ds0 + 86400) else (days0, ds0)
  let hour := dd.2.tdiv 3600
  let minute := (dd.2.tmod 3600).tdiv 60
  let second := dd.2.tmod 60
  let ymd := civilFromDays dd.1
  ⟨ymd.1, (ymd.2.1 : Int), ymd.2.2, hour, minute, second, tr.2⟩

/-- Character at index `i` of a C string buffer; past the end the buffer
holds the NUL terminator. -/
def getc (s : List Char) (i : Nat) : Char := s.getD i (Char.ofNat 0)

/-- Accumulator loop of `ut_internal_parse_int` in ut_date.c: read `n`
characters, fail with -1 on the first non-digit. -/
def parseIntAux : List Char → Nat → Int → Int
  | _, 0, val => val
  | [], _ + 1, _ => -1
  | c :: rest, n + 1, val =>
    if c.toNat < 48 || 57 < c.toNat then -1
    else parseIntAux rest n (val * 10 + ((c.toNat : Int) - 48))

/-- Fixed-width unsigned integer parsing, from `ut_internal_parse_int`
in ut_date.c; returns -1 on any non-digit (a character past the string's
end reads the NUL terminator, which is a non-digit). -/
def ut_internal_parse_int (s : List Char) (n : Nat) : Int :=
  parseIntAux s n 0

/-- The `multipliers[len - 1]` table of `ut_internal_parse_fraction`. -/
def fracMultiplier (len : Nat) : Int :=
  [100000000, 10000000, 1000000, 100000, 10000, 1000, 100, 10, 1].getD (len - 1) 1

/-- Fractional-second parsing, from `ut_internal_parse_fraction` in
ut_date.c: 1 to 9 digits, right-padded to nanoseconds via the multiplier
table; -1 on a bad length or a non-digit. -/
def ut_internal_parse_fraction (s : List Char) (len : Nat) : Int :=
  if len < 1 || 9 < len then -1
  else
    let v := parseIntAux s len 0
    if v < 0 then -1 else v * fracMultiplier len

/-- The digit scan of parse_timestamp
(`while (pos < len && str[pos] >= '0' && str[pos] <= '9') pos++;`),
expressed on the remaining input: split off the leading run of digits. -/
def spanDigits : List Char → List Char × List Char
  | [] => ([], [])
  | c :: rest =>
    if 48 ≤ c.toNat ∧ c.toNat ≤ 57 then
      let p := spanDigits rest
      (c :: p.1, p.2)
    else ([], c :: rest)

/-- Lines 50-76 of ut_parse.c: the optional fractional part.  Takes the
input remaining after the 19 mandatory characters, returns either an
error or the fractional nanoseconds together with the input remaining
after the consumed digits (in lenient mode an over-long fraction is
truncated to its first 9 digits but all digits are consumed). -/
def frac_phase (rem : List Char) (strict : Bool) : ut_error_t ⊕ (Int × List Char) :=
  match rem with
  | '.' :: rest =>
    let p := spanDigits rest
    if p.1.length = 0 then .inl UT_ERR_INVALID_FORMAT
    else if p.1.length > 9 then
      if strict then .inl UT_ERR_FRACTION_TOO_LONG
      else
        let f := ut_internal_parse_fraction (p.1.take 9) 9
        if f < 0 then .inl UT_ERR_INVALID_FORMAT else .inr (f, p.2)
    else
      let f := ut_internal_parse_fraction p.1 p.1.length
      if f < 0 then .inl UT_ERR_INVALID_FORMAT else .inr (f, p.2)
  | _ => .inr (0, rem)

/-- Lines 78-121 of ut_parse.c: the UTC designator / offset suffix.
Takes the input remaining after the fraction, returns an error or the
input remaining after the designator.  Note that in lenient mode an
unrecognized designator character is left unconsumed (the C code's final
`else` branch does not advance `pos`). -/
def suffix_phase (rem : List Char) (strict : Bool) : ut_error_t ⊕ List Char :=
  match rem with
  | [] => if strict then .inl UT_ERR_INVALID_FORMAT else .inr []
  | c :: rest =>
    if c = 'Z' then .inr rest
    else if c = 'z' then
      if strict then .inl UT_ERR_INVALID_FORMAT else .inr rest
    else if c = '+' ∨ c = '-' then
      if (c :: rest).length < 6 then .inl UT_ERR_INVALID_FORMAT
      else if getc (c :: rest) 3 ≠ ':' then .inl UT_ERR_INVALID_FORMAT
      else
        let off_hour := ut_internal_parse_int ((c :: rest).drop 1) 2
        let off_min := ut_internal_parse_int ((c :: rest).drop 4) 2
        if off_hour < 0 ∨ off_min < 0 then .inl UT_ERR_INVALID_FORMAT
        else if off_hour ≠ 0 ∨ off_min ≠ 0 then .inl UT_ERR_UNSUPPORTED_OFFSET
        else if strict then .inl UT_ERR_UNSUPPORTED_OFFSET
        else .inr ((c :: rest).drop 6)
    else if strict then .inl UT_ERR_INVALID_FORMAT
    else .inr (c :: rest)

/-- The shared parser `parse_timestamp` of ut_parse.c.  `str` is the
possibly-NULL input string; `out` is the value currently stored in the
possibly-NULL output parameter, and the second component of the result
is the value stored there when the call returns (the C function writes
`out->nanos` only at its final, successful line). -/
def parse_timestamp (str : Option (List Char)) (out : Option Int) (strict : Bool) :
    ut_error_t × Option Int :=
  match str, out with
  | none, _ => (UT_ERR_NULL_POINTER, out)
  | some _, none => (UT_ERR_NULL_POINTER, out)
  | some s, some _ =>
    if s.length < 19 then (UT_ERR_INVALID_FORMAT, out)
    else if getc s 4 ≠ '-' ∨ getc s 7 ≠ '-' ∨ getc s 10 ≠ 'T' ∨
            getc s 13 ≠ ':' ∨ getc s 16 ≠ ':' then (UT_ERR_INVALID_FORMAT, out)
    else
      let year := ut_internal_parse_int s 4
      let month := ut_internal_parse_int (s.drop 5) 2
      let day := ut_internal_parse_int (s.drop 8) 2
      let hour := ut_internal_parse_int (s.drop 11) 2
      let minute := ut_internal_parse_int (s.drop 14) 2
      let second := ut_internal_parse_int (s.drop 17) 2
      if year < 0 ∨ month < 0 ∨ day < 0 ∨ hour < 0 ∨ minute < 0 ∨ second < 0 then
        (UT_ERR_INVALID_FORMAT, out)
      else if hour > 23 ∨ minute > 59 ∨ second > 59 then (UT_ERR_OUT_OF_RANGE, out)
      else if second = 60 then (UT_ERR_LEAP_SECOND, out)
      else if ¬ ut_internal_validate_date year month day then (UT_ERR_INVALID_DATE, out)
      else
        match frac_phase (s.drop 19) strict with
        | .inl e => (e, out)
        | .inr fr =>
          match suffix_phase fr.2 strict with
          | .inl e => (e, out)
          | .inr rem =>
            if rem ≠ [] then (UT_ERR_INVALID_FORMAT, out)
            else (UT_OK, some (ut_internal_to_nanos year month day hour minute second fr.1))

/-- Strict-mode entry point `ut_parse_strict` of ut_parse.c. -/
def ut_parse_strict (str : Option (List Char)) (out : Option Int) : ut_error_t × Option Int :=
  parse_timestamp str out true

/-- Lenient-mode entry point `ut_parse_lenient` of ut_parse.c. -/
def ut_parse_lenient (str : Option (List Char)) (out : Option Int) : ut_error_t × Option Int :=
  parse_timestamp str out false

/-- The character `'0' + d` for a digit value `d`. -/
def dc (d : Int) : Char := Char.ofNat (48 + d.toNat)

/-- Two zero-padded decimal digits: `snprintf "%02d"` for values in
[0, 99] (the component ranges produced by `ut_internal_from_nanos`). -/
def dig2 (v : Int) : List Char := [dc (v.tdiv 10), dc (v.tmod 10)]

/-- Four zero-padded decimal digits: `snprintf "%04d"` for values in
[0, 9999] (the year range produced by `ut_internal_from_nanos` on every
`int64_t` input, proven below). -/
def dig4 (v : Int) : List Char :=
  [dc (v.tdiv 1000), dc ((v.tdiv 100).tmod 10), dc ((v.tdiv 10).tmod 10), dc (v.tmod 10)]

/-- The nine-digit fraction buffer built by the digit loop of `ut_format`
(ut_format.c lines 28-34): digit `i` is `frac / 10^(8-i) % 10`. -/
def dig9 (v : Int) : List Char :=
  [dc ((v.tdiv 100000000).tmod 10), dc ((v.tdiv 10000000).tmod 10),
   dc ((v.tdiv 1000000).tmod 10), dc ((v.tdiv 100000).tmod 10),
   dc ((v.tdiv 10000).tmod 10), dc ((v.tdiv 1000).tmod 10),
   dc ((v.tdiv 100).tmod 10), dc ((v.tdiv 10).tmod 10), dc (v.tmod 10)]

/-- Helper for the trailing-zero strip of `ut_format` (lines 36-40),
working on the reversed digit list: drop leading `'0'` characters while
more than one character remains. -/
def stripRevAux : List Char → List Char
  | [] => []
  | c :: rest => if c = '0' ∧ rest ≠ [] then stripRevAux rest else c :: rest

/-- The trailing-zero strip of `ut_format`: `while (digits > 1 &&
frac_buf[digits - 1] == '0') digits--;`. -/
def stripTrailingZeros (l : List Char) : List Char :=
  (stripRevAux l.reverse).reverse

/-- The text produced by `ut_format` (ut_format.c lines 21-47) before any
buffer-capacity truncation: `YYYY-MM-DDTHH:MM:SS` then, when
`include_nanos` is set and the fraction is non-zero, `.` and the
trailing-zero-stripped 9-digit fraction, then `Z`. -/
def ut_format_str (nanos : Int) (include_nanos : Bool) : List Char :=
  let b := ut_internal_from_nanos nanos
  if include_nanos && b.frac > 0 then
    dig4 b.year ++ '-' :: dig2 b.month ++ '-' :: dig2 b.day ++ 'T' :: dig2 b.hour ++
      ':' :: dig2 b.minute ++ ':' :: dig2 b.second ++ '.' ::
      stripTrailingZeros (dig9 b.frac) ++ ['Z']
  else
    dig4 b.year ++ '-' :: dig2 b.month ++ '-' :: dig2 b.day ++ 'T' :: dig2 b.hour ++
      ':' :: dig2 b.minute ++ ':' :: dig2 b.second ++ ['Z']

/-- The `ut_format` function of ut_format.c.  `buf_is_null` models
`buf == NULL`.  The result is the returned `int` (the length `snprintf`
reports, or -1) together with the characters left in the buffer
(`snprintf` stores at most `buf_size - 1` characters plus a NUL). -/
def ut_format (nanos : Int) (buf_is_null : Bool) (buf_size : Nat) (include_nanos : Bool) :
    Int × Option (List Char) :=
  if buf_is_null || buf_size < 32 then (-1, none)
  else
    let s := ut_format_str nanos include_nanos
    ((s.length : Int), some (s.take (buf_size - 1)))

/-- Day of week (0 = Monday .. 6 = Sunday), from `day_of_week_from_nanos`
in ut_calendar.c: truncating division of the nanosecond count by the
nanoseconds per day, offset so that the epoch day is Thursday. -/
def day_of_week_from_nanos (nanos : Int) : Int :=
  let days := nanos.tdiv 86400000000000
  let dow := (days + 3).tmod 7
  if dow < 0 then dow + 7 else dow

/-- ISO week-date components `(iso_year, week, weekday)`, from
`ut_to_iso_week` in ut_calendar.c (the day-of-year loop is the same
month-length sum as `monthsSum`). -/
def ut_to_iso_week (nanos : Int) : Int × Int × Int :=
  let b := ut_internal_from_nanos nanos
  let dow := day_of_week_from_nanos nanos
  let weekday := dow + 1
  let day_of_year := monthsSum b.year (b.month - 1).toNat + b.day
  let thursday_doy := day_of_year + (3 - dow)
  if thursday_doy < 1 then
    let iso_year := b.year - 1
    let prev_year_days := if ut_internal_is_leap_year iso_year then (366 : Int) else 365
    (iso_year, (thursday_doy + prev_year_days + 6).tdiv 7, weekday)
  else
    let this_year_days := if ut_internal_is_leap_year b.year then (366 : Int) else 365
    if thursday_doy > this_year_days then
      (b.year + 1, (thursday_doy - this_year_days + 6).tdiv 7, weekday)
    else (b.year, (thursday_doy + 6).tdiv 7, weekday)

/-- One call of `ut_now_monotonic` (ut_now.c lines 33-55) as a state
machine step: given the current `g_last_monotonic` value and the
wall-clock reading `current.nanos`, the emitted value is `last + 1` when
the clock did not advance, else the clock value; the emitted value is
also stored back into `g_last_monotonic`. -/
def ut_now_monotonic_step (last now : Int) : Int :=
  if now ≤ last then last + 1 else now

/-- The sequence of values emitted by successive `ut_now_monotonic`
calls, starting from the state `last`, when the wall clock returns the
(arbitrary) readings `clocks` in order. -/
def monotonicOutputs (last : Int) : List Int → List Int
  | [] => []
  | c :: cs =>
    ut_now_monotonic_step last c :: monotonicOutputs (ut_now_monotonic_step last c) cs

/-- The value of `g_last_monotonic` after the calls described by
`monotonicOutputs` (initially 0, per `ATOMIC_VAR_INIT(0)`). -/
def lastEmittedAfter (last : Int) : List Int → Int
  | [] => last
  | c :: cs => lastEmittedAfter (ut_now_monotonic_step last c) cs

/-- Decimal value of a digit string, most significant digit first
(specification helper used to state the parser claims). -/
def digitsVal (l : List Char) : Int :=
  l.foldl (fun a c => a * 10 + ((c.toNat : Int) - 48)) 0

/-- Modelled from the spec: the actual day of week (Monday = 1 ..
Sunday = 7) of a calendar date, derived from the epoch day count
(`days_from_epoch`) with the fixed anchor 1970-01-01 = Thursday.  This
is the reference definition the weekday produced by `ut_to_iso_week` is
compared against in claim C8. -/
def specDayOfWeek (year month day : Int) : Int :=
  (days_from_epoch year month day + 3) % 7 + 1

/-! ### Arithmetic bridges between C truncating division and Euclidean division -/

theorem tmod_neg_lt (a : Int) {b : Int} (hb : 0 < b) : -b < a.tmod b := by
  rcases le_or_lt 0 a with ha | ha
  · have h0 : 0 ≤ a.tmod b := Int.tmod_nonneg b ha
    omega
  · have hneg : (-a).tmod b = -(a.tmod b) := by
      rw [Int.tmod_def, Int.tmod_def, Int.neg_tdiv]; ring
    have h1 : (-a).tmod b < b := Int.tmod_lt_of_pos _ hb
    omega

/-- The sign-correction pattern of `ut_internal_from_nanos` turns C's
truncating division-remainder pair into the Euclidean pair. -/
theorem tdivmod_fix (a : Int) {b : Int} (hb : 0 < b) :
    (if a.tmod b < 0 then (a.tdiv b - 1, a.tmod b + b) else (a.tdiv b, a.tmod b)) =
      (a / b, a % b) := by
  have hid : b * a.tdiv b + a.tmod b = a := Int.tdiv_add_tmod a b
  have hlt : a.tmod b < b := Int.tmod_lt_of_pos a hb
  have hgt : -b < a.tmod b := tmod_neg_lt a hb
  by_cases h : a.tmod b < 0
  · have : a / b = a.tdiv b - 1 ∧ a % b = a.tmod b + b := by
      rw [Int.ediv_emod_unique hb]
      refine ⟨by ring_nf; omega, by omega, by omega⟩
    simp [h, this.1, this.2]
  · have : a / b = a.tdiv b ∧ a % b = a.tmod b := by
      rw [Int.ediv_emod_unique hb]
      refine ⟨by ring_nf; omega, by omega, by omega⟩
    simp [h, this.1, this.2]

/-! ### Year and month sum lemmas -/

theorem yearLen_ge (y : Int) : 365 ≤ yearLen y := by
  unfold yearLen; split <;> norm_num

theorem yearLen_le (y : Int) : yearLen y ≤ 366 := by
  unfold yearLen; split <;> norm_num

theorem sumYearsFrom_zero (y : Int) : sumYearsFrom y 0 = 0 := rfl

theorem sumYearsFrom_succ (y : Int) (k : Nat) :
    sumYearsFrom y (k + 1) = sumYearsFrom y k + yearLen (y + k) := rfl

theorem sumYearsFrom_one (y : Int) : sumYearsFrom y 1 = yearLen y := by
  rw [sumYearsFrom_succ, sumYearsFrom_zero]; simp

theorem sumYearsFrom_succ_front (y : Int) (k : Nat) :
    sumYearsFrom y (k + 1) = yearLen y + sumYearsFrom (y + 1) k := by
  induction k with
  | zero => rw [sumYearsFrom_one, sumYearsFrom_zero]; ring
  | succ k ih =>
    rw [sumYearsFrom_succ, ih, sumYearsFrom_succ]
    have : y + 1 + (k : Int) = y + ((k : Int) + 1) := by ring
    rw [this]
    push_cast
    ring

theorem sumYearsFrom_nonneg (y : Int) (k : Nat) : 0 ≤ sumYearsFrom y k := by
  induction k with
  | zero => simp [sumYearsFrom_zero]
  | succ k ih =>
    rw [sumYearsFrom_succ]
    have := yearLen_ge (y + k)
    omega

theorem sumYearsFrom_split (y : Int) (a b : Nat) :
    sumYearsFrom y (a + b) = sumYearsFrom y a + sumYearsFrom (y + a) b := by
  induction b with
  | zero => simp [sumYearsFrom_zero]
  | succ b ih =>
    have h1 : a + (b + 1) = (a + b) + 1 := by omega
    rw [h1, sumYearsFrom_succ, ih, sumYearsFrom_succ]
    push_cast
    ring

theorem dim_nonneg (y m : Int) : 0 ≤ ut_internal_days_in_month y m := by
  unfold ut_internal_days_in_month
  split
  · omega
  · split
    · omega
    · rename_i h1 h2
      have hm1 : 1 ≤ m := by
        by_contra hc
        simp only [not_le] at hc
        simp [decide_eq_true_eq, show m < 1 by omega] at h1
      have hm12 : m ≤ 12 := by
        by_contra hc
        simp only [not_le] at hc
        simp [decide_eq_true_eq, show m > 12 by omega] at h1
      interval_cases m <;> simp [DAYS_IN_MONTH]

theorem dim_bounds (y m : Int) (h1 : 1 ≤ m) (h2 : m ≤ 12) :
    28 ≤ ut_internal_days_in_month y m ∧ ut_internal_days_in_month y m ≤ 31 := by
  interval_cases m <;>
    simp [ut_internal_days_in_month, DAYS_IN_MONTH] <;>
    split <;> norm_num

theorem monthsSum_zero (y : Int) : monthsSum y 0 = 0 := rfl

theorem monthsSum_succ (y : Int) (k : Nat) :
    monthsSum y (k + 1) = monthsSum y k + ut_internal_days_in_month y (((k + 1 : Nat) : Int)) := by
  show monthsSum y (k + 1) = monthsSum y k + ut_internal_days_in_month y ((k : Int) + 1)
  rfl

theorem monthsSum_twelve (y : Int) : monthsSum y 12 = yearLen y := by
  cases h : ut_internal_is_leap_year y <;>
    simp [monthsSum_succ, monthsSum_zero, ut_internal_days_in_month, DAYS_IN_MONTH,
      yearLen, h] <;> norm_num

theorem monthsSum_nonneg (y : Int) (k : Nat) : 0 ≤ monthsSum y k := by
  induction k with
  | zero => simp [monthsSum_zero]
  | succ k ih =>
    rw [monthsSum_succ]
    have := dim_nonneg y (((k + 1 : Nat) : Int))
    omega

/-! ### Walk specifications -/

theorem yearWalkFwd_spec : ∀ (fuel : Nat) (y days : Int), 0 ≤ days → days < (fuel : Int) →
    y ≤ (yearWalkFwd fuel y days).1 ∧ 0 ≤ (yearWalkFwd fuel y days).2 ∧
    (yearWalkFwd fuel y days).2 < yearLen (yearWalkFwd fuel y days).1 ∧
    sumYearsFrom y ((yearWalkFwd fuel y days).1 - y).toNat + (yearWalkFwd fuel y days).2 = days := by
  intro fuel
  induction fuel with
  | zero => intro y days h0 hf; simp at hf; omega
  | succ fuel ih =>
    intro y days h0 hf
    by_cases h : days ≥ yearLen y
    · have hlen := yearLen_ge y
      have step : yearWalkFwd (fuel + 1) y days = yearWalkFwd fuel (y + 1) (days - yearLen y) := by
        simp [yearWalkFwd, h]
      rw [step]
      have h0' : 0 ≤ days - yearLen y := by omega
      have hf' : days - yearLen y < (fuel : Int) := by push_cast at hf ⊢; omega
      obtain ⟨ha, hb, hc, hd⟩ := ih (y + 1) (days - yearLen y) h0' hf'
      set p := yearWalkFwd fuel (y + 1) (days - yearLen y) with hp
      refine ⟨by omega, hb, hc, ?_⟩
      have hk : (p.1 - y).toNat = (p.1 - (y + 1)).toNat + 1 := by omega
      rw [hk, sumYearsFrom_succ_front]
      have hcast : y + 1 + ((p.1 - (y + 1)).toNat : Int) = y + 1 + (p.1 - (y + 1)) := by omega
      omega
    · have step : yearWalkFwd (fuel + 1) y days = (y, days) := by
        simp [yearWalkFwd, h]
      rw [step]
      dsimp only
      refine ⟨le_refl y, h0, by omega, ?_⟩
      simp [sumYearsFrom_zero, show (y - y).toNat = 0 by omega]

theorem yearWalkBwd_id (fuel : Nat) (y days : Int) (h : 0 ≤ days) :
    yearWalkBwd fuel y days = (y, days) := by
  cases fuel with
  | zero => rfl
  | succ fuel => simp [yearWalkBwd, show ¬ days < 0 by omega]

theorem yearWalkBwd_spec : ∀ (fuel : Nat) (y days : Int), days < 0 → -days ≤ (fuel : Int) →
    (yearWalkBwd fuel y days).1 < y ∧ 0 ≤ (yearWalkBwd fuel y days).2 ∧
    (yearWalkBwd fuel y days).2 < yearLen (yearWalkBwd fuel y days).1 ∧
    -(sumYearsFrom (yearWalkBwd fuel y days).1 (y - (yearWalkBwd fuel y days).1).toNat) +
      (yearWalkBwd fuel y days).2 = days := by
  intro fuel
  induction fuel with
  | zero => intro y days h0 hf; simp at hf; omega
  | succ fuel ih =>
    intro y days h0 hf
    have hlen := yearLen_ge (y - 1)
    have step : yearWalkBwd (fuel + 1) y days =
        yearWalkBwd fuel (y - 1) (days + yearLen (y - 1)) := by
      simp [yearWalkBwd, h0]
    rw [step]
    by_cases h : 0 ≤ days + yearLen (y - 1)
    · rw [yearWalkBwd_id fuel _ _ h]
      dsimp only
      refine ⟨by omega, h, by omega, ?_⟩
      have hk : (y - (y - 1)).toNat = 1 := by omega
      rw [hk, sumYearsFrom_one]
      omega
    · have h0' : days + yearLen (y - 1) < 0 := by omega
      have hf' : -(days + yearLen (y - 1)) ≤ (fuel : Int) := by push_cast at hf ⊢; omega
      obtain ⟨ha, hb, hc, hd⟩ := ih (y - 1) (days + yearLen (y - 1)) h0' hf'
      set p := yearWalkBwd fuel (y - 1) (days + yearLen (y - 1)) with hp
      refine ⟨by omega, hb, hc, ?_⟩
      have hk : (y - p.1).toNat = (y - 1 - p.1).toNat + 1 := by omega
      rw [hk, sumYearsFrom_succ]
      have hcast : p.1 + ((y - 1 - p.1).toNat : Int) = y - 1 := by omega
      rw [hcast]
      omega

theorem monthWalk_spec : ∀ (fuel : Nat) (y : Int) (m : Nat) (days : Int),
    1 ≤ m → m ≤ 12 → 0 ≤ days → monthsSum y (m - 1) + days < yearLen y → 13 ≤ fuel + m →
    1 ≤ (monthWalk fuel y m days).1 ∧ (monthWalk fuel y m days).1 ≤ 12 ∧
    0 ≤ (monthWalk fuel y m days).2 ∧
    (monthWalk fuel y m days).2 < ut_internal_days_in_month y ((monthWalk fuel y m days).1 : Int) ∧
    monthsSum y ((monthWalk fuel y m days).1 - 1) + (monthWalk fuel y m days).2 =
      monthsSum y (m - 1) + days := by
  intro fuel
  induction fuel with
  | zero => intro y m days h1 h2 h3 h4 h5; omega
  | succ fuel ih =>
    intro y m days h1 h2 h3 h4 h5
    by_cases h : days < ut_internal_days_in_month y (m : Int)
    · have step : monthWalk (fuel + 1) y m days = (m, days) := by
        simp [monthWalk, h]
      rw [step]
      exact ⟨h1, h2, h3, h, rfl⟩
    · have hsucc : monthsSum y m = monthsSum y (m - 1) + ut_internal_days_in_month y (m : Int) := by
        have hm : m - 1 + 1 = m := by omega
        have := monthsSum_succ y (m - 1)
        rw [hm] at this
        rw [this]
      have hm11 : m ≤ 11 := by
        by_contra hc
        have hm12 : m = 12 := by omega
        subst hm12
        rw [show (12 : Nat) - 1 = 11 from rfl] at h4
        have h12 : monthsSum y 12 = monthsSum y 11 + ut_internal_days_in_month y 12 := by
          have := monthsSum_succ y 11
          norm_num at this
          exact this
        have := monthsSum_twelve y
        simp only [show ((12 : Nat) : Int) = (12 : Int) from rfl] at h
        omega
      have step : monthWalk (fuel + 1) y m days =
          monthWalk fuel y (m + 1) (days - ut_internal_days_in_month y (m : Int)) := by
        simp [monthWalk, h]
      rw [step]
      have hd := dim_bounds y m (by exact_mod_cast h1) (by exact_mod_cast h2)
      have ih' := ih y (m + 1) (days - ut_internal_days_in_month y (m : Int))
        (by omega) (by omega) (by omega)
        (by rw [show m + 1 - 1 = m by omega, hsucc]; omega)
        (by omega)
      obtain ⟨ha, hb, hc, hdd, he⟩ := ih'
      refine ⟨ha, hb, hc, hdd, ?_⟩
      rw [he, show m + 1 - 1 = m by omega, hsucc]
      ring

/-! ### Resolution of a day count to a calendar date -/

theorem civilFromDays_spec (days : Int) :
    1 ≤ (civilFromDays days).2.1 ∧ (civilFromDays days).2.1 ≤ 12 ∧
    1 ≤ (civilFromDays days).2.2 ∧
    (civilFromDays days).2.2 ≤
      ut_internal_days_in_month (civilFromDays days).1 ((civilFromDays days).2.1 : Int) ∧
    days_from_epoch (civilFromDays days).1 ((civilFromDays days).2.1 : Int)
      (civilFromDays days).2.2 = days ∧
    (0 ≤ days → 1970 ≤ (civilFromDays days).1 ∧
      sumYearsFrom 1970 ((civilFromDays days).1 - 1970).toNat ≤ days) ∧
    (days < 0 → (civilFromDays days).1 ≤ 1969 ∧
      days < -(sumYearsFrom (civilFromDays days).1 (1970 - (civilFromDays days).1).toNat) +
        yearLen (civilFromDays days).1) := by
  by_cases hd : days ≥ 0
  · obtain ⟨hy1, hy2, hy3, hy4⟩ :=
      yearWalkFwd_spec (days.toNat + 1) 1970 days hd (by push_cast; omega)
    set yd := yearWalkFwd (days.toNat + 1) 1970 days with hyd
    obtain ⟨hm1, hm2, hm3, hm4, hm5⟩ :=
      monthWalk_spec 12 yd.1 1 yd.2 (by norm_num) (by norm_num) hy2
        (by simpa [monthsSum_zero] using hy3) (by norm_num)
    set md := monthWalk 12 yd.1 1 yd.2 with hmd
    norm_num [monthsSum_zero] at hm5
    have hc : civilFromDays days = (yd.1, md.1, md.2 + 1) := by
      unfold civilFromDays
      rw [if_pos hd]
    rw [hc]
    dsimp only
    refine ⟨by omega, by omega, by omega, by omega, ?_, ?_, ?_⟩
    · unfold days_from_epoch
      rw [if_pos (by omega : (yd.1 : Int) ≥ 1970)]
      have hcast : (((md.1 : Int)) - 1).toNat = md.1 - 1 := by omega
      rw [hcast]
      omega
    · intro _
      exact ⟨by omega, by omega⟩
    · intro hneg
      omega
  · have hdn : days < 0 := by omega
    obtain ⟨hy1, hy2, hy3, hy4⟩ :=
      yearWalkBwd_spec ((-days).toNat + 1) 1970 days hdn (by push_cast; omega)
    set yd := yearWalkBwd ((-days).toNat + 1) 1970 days with hyd
    obtain ⟨hm1, hm2, hm3, hm4, hm5⟩ :=
      monthWalk_spec 12 yd.1 1 yd.2 (by norm_num) (by norm_num) hy2
        (by simpa [monthsSum_zero] using hy3) (by norm_num)
    set md := monthWalk 12 yd.1 1 yd.2 with hmd
    norm_num [monthsSum_zero] at hm5
    have hc : civilFromDays days = (yd.1, md.1, md.2 + 1) := by
      unfold civilFromDays
      rw [if_neg hd]
    rw [hc]
    dsimp only
    refine ⟨by omega, by omega, by omega, by omega, ?_, ?_, ?_⟩
    · unfold days_from_epoch
      rw [if_neg (by omega : ¬ (yd.1 : Int) ≥ 1970)]
      have hcast : (((md.1 : Int)) - 1).toNat = md.1 - 1 := by omega
      rw [hcast]
      omega
    · intro hpos
      omega
    · intro _
      exact ⟨by omega, by omega⟩

/-- `ut_internal_from_nanos` written with Euclidean division: the two
sign corrections of the C code are exactly the adjustment from
truncating to Euclidean division-remainder pairs. -/
theorem ut_internal_from_nanos_eq (n : Int) :
    ut_internal_from_nanos n =
      ⟨(civilFromDays (n / 1000000000 / 86400)).1,
       ((civilFromDays (n / 1000000000 / 86400)).2.1 : Int),
       (civilFromDays (n / 1000000000 / 86400)).2.2,
       n / 1000000000 % 86400 / 3600,
       n / 1000000000 % 86400 % 3600 / 60,
       n / 1000000000 % 86400 % 60,
       n % 1000000000⟩ := by
  simp only [ut_internal_from_nanos]
  rw [tdivmod_fix n (by norm_num : (0:Int) < 1000000000)]
  dsimp only
  rw [tdivmod_fix (n / 1000000000) (by norm_num : (0:Int) < 86400)]
  dsimp only
  have h1 : (0:Int) ≤ n / 1000000000 % 86400 := Int.emod_nonneg _ (by norm_num)
  have h2 : (0:Int) ≤ n / 1000000000 % 86400 % 3600 := Int.emod_nonneg _ (by norm_num)
  rw [Int.tmod_eq_emod h1 (by norm_num : (0:Int) ≤ 3600)]
  rw [Int.tmod_eq_emod h1 (by norm_num : (0:Int) ≤ 60)]
  rw [Int.tdiv_eq_ediv h1 (by norm_num : (0:Int) ≤ 3600)]
  rw [Int.tdiv_eq_ediv h2 (by norm_num : (0:Int) ≤ 60)]

set_option maxRecDepth 4000 in
theorem sumYears_1970_293 : sumYearsFrom 1970 293 = 107016 := by decide

set_option maxRecDepth 4000 in
theorem sumYears_1677_293 : sumYearsFrom 1677 293 = 107015 := by decide

/-- On every `int64_t` input the year produced by `ut_internal_from_nanos`
lies in [1677, 2262] (the representable ~±292-year range around 1970). -/
theorem from_nanos_year_range (n : Int)
    (h1 : -9223372036854775808 ≤ n) (h2 : n < 9223372036854775808) :
    1677 ≤ (ut_internal_from_nanos n).year ∧ (ut_internal_from_nanos n).year ≤ 2262 := by
  rw [ut_internal_from_nanos_eq n]
  dsimp only
  set d := n / 1000000000 / 86400 with hdd
  have hdb : -106752 ≤ d ∧ d ≤ 106751 := by rw [hdd]; omega
  have hs := civilFromDays_spec d
  set c := civilFromDays d with hc
  by_cases hd : 0 ≤ d
  · obtain ⟨hy, hsum⟩ := hs.2.2.2.2.2.1 hd
    constructor
    · omega
    · by_contra hy2
      have hy3 : 2263 ≤ c.1 := by omega
      have hk : (c.1 - 1970).toNat = 293 + (c.1 - 2263).toNat := by omega
      rw [hk, sumYearsFrom_split, sumYears_1970_293] at hsum
      have := sumYearsFrom_nonneg (1970 + (293:Nat)) (c.1 - 2263).toNat
      omega
  · obtain ⟨hy, hsum⟩ := hs.2.2.2.2.2.2 (by omega)
    constructor
    · by_contra hy2
      have hy3 : c.1 ≤ 1676 := by omega
      have hk : (1970 - c.1).toNat = (1677 - c.1).toNat + 293 := by omega
      rw [hk, sumYearsFrom_split] at hsum
      have hbase : c.1 + (((1677 - c.1).toNat : Nat) : Int) = 1677 := by omega
      rw [hbase, sumYears_1677_293] at hsum
      have hk2 : (1677 - c.1).toNat = (1676 - c.1).toNat + 1 := by omega
      have hfront : sumYearsFrom c.1 ((1676 - c.1).toNat + 1) =
          yearLen c.1 + sumYearsFrom (c.1 + 1) (1676 - c.1).toNat := sumYearsFrom_succ_front _ _
      rw [hk2, hfront] at hsum
      have := sumYearsFrom_nonneg (c.1 + 1) (1676 - c.1).toNat
      omega
    · omega

/-- Main specification of `ut_internal_from_nanos`: every component is in
its normalized range and `ut_internal_to_nanos` recovers the input
exactly (claim of §4.1 of the specification). -/
theorem ut_internal_from_nanos_spec (n : Int) :
    0 ≤ (ut_internal_from_nanos n).frac ∧ (ut_internal_from_nanos n).frac ≤ 999999999 ∧
    0 ≤ (ut_internal_from_nanos n).hour ∧ (ut_internal_from_nanos n).hour ≤ 23 ∧
    0 ≤ (ut_internal_from_nanos n).minute ∧ (ut_internal_from_nanos n).minute ≤ 59 ∧
    0 ≤ (ut_internal_from_nanos n).second ∧ (ut_internal_from_nanos n).second ≤ 59 ∧
    1 ≤ (ut_internal_from_nanos n).month ∧ (ut_internal_from_nanos n).month ≤ 12 ∧
    1 ≤ (ut_internal_from_nanos n).day ∧
    (ut_internal_from_nanos n).day ≤
      ut_internal_days_in_month (ut_internal_from_nanos n).year (ut_internal_from_nanos n).month ∧
    ut_internal_to_nanos (ut_internal_from_nanos n).year (ut_internal_from_nanos n).month
      (ut_internal_from_nanos n).day (ut_internal_from_nanos n).hour
      (ut_internal_from_nanos n).minute (ut_internal_from_nanos n).second
      (ut_internal_from_nanos n).frac = n := by
  rw [ut_internal_from_nanos_eq n]
  dsimp only
  set d := n / 1000000000 / 86400 with hdd
  have hs := civilFromDays_spec d
  set c := civilFromDays d with hc
  obtain ⟨hmo1, hmo2, hday1, hday2, hdfe, _, _⟩ := hs
  refine ⟨by omega, by omega, by omega, by omega, by omega, by omega, by omega, by omega,
    by omega, by omega, by omega, hday2, ?_⟩
  simp only [ut_internal_to_nanos]
  rw [hdfe]
  omega

/-! ### Monotonic generator lemmas -/

theorem ut_now_monotonic_step_gt (last now : Int) :
    last + 1 ≤ ut_now_monotonic_step last now := by
  unfold ut_now_monotonic_step
  split <;> omega

theorem monotonicOutputs_mem_gt :
    ∀ (cs : List Int) (last x : Int), x ∈ monotonicOutputs last cs → last < x := by
  intro cs
  induction cs with
  | nil => intro last x hx; simp [monotonicOutputs] at hx
  | cons c cs ih =>
    intro last x hx
    simp only [monotonicOutputs, List.mem_cons] at hx
    have hstep := ut_now_monotonic_step_gt last c
    rcases hx with rfl | hx
    · omega
    · have := ih (ut_now_monotonic_step last c) x hx
      omega

theorem monotonicOutputs_chain :
    ∀ (cs : List Int) (last : Int), (monotonicOutputs last cs).Chain' (· < ·) := by
  intro cs
  induction cs with
  | nil => intro last; simp [monotonicOutputs]
  | cons c cs ih =>
    intro last
    simp only [monotonicOutputs]
    rw [List.chain'_cons']
    refine ⟨fun b hb => ?_, ih _⟩
    exact monotonicOutputs_mem_gt cs _ b (List.mem_of_mem_head? hb)

theorem lastEmittedAfter_append (xs : List Int) (c : Int) :
    ∀ last, lastEmittedAfter last (xs ++ [c]) =
      ut_now_monotonic_step (lastEmittedAfter last xs) c := by
  induction xs with
  | nil => intro last; rfl
  | cons x xs ih => intro last; simp only [List.cons_append, lastEmittedAfter]; exact ih _

/-! ### Claim theorems: monotonic generator and calendar inverse -/

/-- C2: modelling `ut_now_monotonic` as a state machine on `last_emitted`
(initially 0) reading arbitrary wall-clock values: each call returns a
value at least `last_emitted + 1`, that value becomes the new
`last_emitted`, successive results are strictly increasing, and
`last_emitted` never decreases — for every sequence of clock readings. -/
theorem claim_C2 :
    (∀ last now : Int, last + 1 ≤ ut_now_monotonic_step last now) ∧
    (∀ last now : Int, lastEmittedAfter last [now] = ut_now_monotonic_step last now) ∧
    (∀ clocks : List Int, (monotonicOutputs 0 clocks).Chain' (· < ·)) ∧
    (∀ (clocks : List Int) (c : Int),
      lastEmittedAfter 0 clocks ≤ lastEmittedAfter 0 (clocks ++ [c])) := by
  refine ⟨ut_now_monotonic_step_gt, fun last now => rfl,
    fun clocks => monotonicOutputs_chain clocks 0, fun clocks c => ?_⟩
  rw [lastEmittedAfter_append]
  have := ut_now_monotonic_step_gt (lastEmittedAfter 0 clocks) c
  omega

/-- C7: on every signed 64-bit nanosecond value, `ut_internal_from_nanos`
yields normalized components (fraction in [0, 999999999], hour in
[0, 23], minute and second in [0, 59], month in [1, 12], day in
[1, days_in_month]) and `ut_internal_to_nanos` maps them back to exactly
the input; the function is total by construction. -/
theorem claim_C7 (n : Int)
    (h1 : -9223372036854775808 ≤ n) (h2 : n < 9223372036854775808) :
    0 ≤ (ut_internal_from_nanos n).frac ∧ (ut_internal_from_nanos n).frac ≤ 999999999 ∧
    0 ≤ (ut_internal_from_nanos n).hour ∧ (ut_internal_from_nanos n).hour ≤ 23 ∧
    0 ≤ (ut_internal_from_nanos n).minute ∧ (ut_internal_from_nanos n).minute ≤ 59 ∧
    0 ≤ (ut_internal_from_nanos n).second ∧ (ut_internal_from_nanos n).second ≤ 59 ∧
    1 ≤ (ut_internal_from_nanos n).month ∧ (ut_internal_from_nanos n).month ≤ 12 ∧
    1 ≤ (ut_internal_from_nanos n).day ∧
    (ut_internal_from_nanos n).day ≤
      ut_internal_days_in_month (ut_internal_from_nanos n).year (ut_internal_from_nanos n).month ∧
    ut_internal_to_nanos (ut_internal_from_nanos n).year (ut_internal_from_nanos n).month
      (ut_internal_from_nanos n).day (ut_internal_from_nanos n).hour
      (ut_internal_from_nanos n).minute (ut_internal_from_nanos n).second
      (ut_internal_from_nanos n).frac = n :=
  ut_internal_from_nanos_spec n

/-- Witness for C7 at the concrete negative instant -1
(1969-12-31T23:59:59.999999999Z). -/
theorem claim_C7_witness :
    0 ≤ (ut_internal_from_nanos (-1)).frac ∧ (ut_internal_from_nanos (-1)).frac ≤ 999999999 ∧
    0 ≤ (ut_internal_from_nanos (-1)).hour ∧ (ut_internal_from_nanos (-1)).hour ≤ 23 ∧
    0 ≤ (ut_internal_from_nanos (-1)).minute ∧ (ut_internal_from_nanos (-1)).minute ≤ 59 ∧
    0 ≤ (ut_internal_from_nanos (-1)).second ∧ (ut_internal_from_nanos (-1)).second ≤ 59 ∧
    1 ≤ (ut_internal_from_nanos (-1)).month ∧ (ut_internal_from_nanos (-1)).month ≤ 12 ∧
    1 ≤ (ut_internal_from_nanos (-1)).day ∧
    (ut_internal_from_nanos (-1)).day ≤
      ut_internal_days_in_month (ut_internal_from_nanos (-1)).year
        (ut_internal_from_nanos (-1)).month ∧
    ut_internal_to_nanos (ut_internal_from_nanos (-1)).year (ut_internal_from_nanos (-1)).month
      (ut_internal_from_nanos (-1)).day (ut_internal_from_nanos (-1)).hour
      (ut_internal_from_nanos (-1)).minute (ut_internal_from_nanos (-1)).second
      (ut_internal_from_nanos (-1)).frac = -1 :=
  claim_C7 (-1) (by decide) (by decide)

/-! ### Parser output-parameter discipline -/

theorem frac_phase_inl (rem : List Char) (strict : Bool) (e : ut_error_t)
    (h : frac_phase rem strict = .inl e) :
    e = UT_ERR_INVALID_FORMAT ∨ e = UT_ERR_FRACTION_TOO_LONG := by
  unfold frac_phase at h
  repeat' (first | split at h | dsimp only at h)
  all_goals simp_all

theorem suffix_phase_inl (rem : List Char) (strict : Bool) (e : ut_error_t)
    (h : suffix_phase rem strict = .inl e) :
    e = UT_ERR_INVALID_FORMAT ∨ e = UT_ERR_UNSUPPORTED_OFFSET := by
  unfold suffix_phase at h
  repeat' (first | split at h | dsimp only at h)
  all_goals simp_all

theorem parse_timestamp_out (s : List Char) (v w : Int) (strict : Bool) :
    (parse_timestamp (some s) (some v) strict).1 = (parse_timestamp (some s) (some w) strict).1 ∧
    ((parse_timestamp (some s) (some v) strict).1 ≠ UT_OK →
      (parse_timestamp (some s) (some v) strict).2 = some v) ∧
    ((parse_timestamp (some s) (some v) strict).1 = UT_OK →
      (parse_timestamp (some s) (some v) strict).2 = (parse_timestamp (some s) (some w) strict).2) := by
  unfold parse_timestamp
  dsimp only
  repeat' split
  all_goals simp_all
  all_goals rename_i heq
  · exact fun h => absurd h (by rcases frac_phase_inl _ _ _ heq with rfl | rfl <;> simp)
  · exact fun h => absurd h (by rcases suffix_phase_inl _ _ _ heq with rfl | rfl <;> simp)

/-- C9: for both parsing modes and every input, an error result leaves
the output parameter unchanged; the parsed instant is stored only on
`UT_OK` (no partial success).  The error code, and on success the stored
value, are independent of the output parameter's previous contents. -/
theorem claim_C9 (str : Option (List Char)) (v : Int) (strict : Bool) :
    ((parse_timestamp str (some v) strict).1 ≠ UT_OK →
      (parse_timestamp str (some v) strict).2 = some v) ∧
    ((parse_timestamp str (some v) strict).2 ≠ some v →
      (parse_timestamp str (some v) strict).1 = UT_OK) ∧
    (∀ w : Int,
      (parse_timestamp str (some v) strict).1 = (parse_timestamp str (some w) strict).1 ∧
      ((parse_timestamp str (some v) strict).1 = UT_OK →
        (parse_timestamp str (some v) strict).2 = (parse_timestamp str (some w) strict).2)) := by
  cases str with
  | none =>
    refine ⟨fun _ => rfl, fun h => absurd rfl h, fun w => ⟨rfl, fun h => ?_⟩⟩
    simp [parse_timestamp] at h
  | some s =>
    refine ⟨fun h => (parse_timestamp_out s v v strict).2.1 h, fun h2 => ?_, fun w =>
      ⟨(parse_timestamp_out s v w strict).1, (parse_timestamp_out s v w strict).2.2⟩⟩
    by_contra hne
    exact h2 ((parse_timestamp_out s v v strict).2.1 hne)

/-- Witness for C9: a rejected input leaves the output value 7 in place,
and on an accepted input the stored result does not depend on the
previous output value. -/
theorem claim_C9_witness :
    (parse_timestamp (some (("2024-12-14T03:13:60Z").toList)) (some 7) true).2 = some 7 ∧
    (parse_timestamp (some (("2024-12-14T03:13:21Z").toList)) (some 7) false).2 =
      (parse_timestamp (some (("2024-12-14T03:13:21Z").toList)) (some 8) false).2 :=
  ⟨(claim_C9 (some (("2024-12-14T03:13:60Z").toList)) 7 true).1 (by decide),
   ((claim_C9 (some (("2024-12-14T03:13:21Z").toList)) 7 false).2.2 8).2 (by decide)⟩

/-- The `second == 60` branch of parse_timestamp is unreachable: the
range check `second > 59 -> OUT_OF_RANGE` on the line above it already
catches 60, so no input ever produces `UT_ERR_LEAP_SECOND`. -/
theorem parse_timestamp_never_leap (str : Option (List Char)) (out : Option Int) (strict : Bool) :
    (parse_timestamp str out strict).1 ≠ UT_ERR_LEAP_SECOND := by
  cases str with
  | none => simp [parse_timestamp]
  | some s =>
    cases out with
    | none => simp [parse_timestamp]
    | some v =>
      unfold parse_timestamp
      dsimp only
      repeat' split
      all_goals try simp_all
      all_goals try omega
      all_goals rename_i heq
      · rcases frac_phase_inl _ _ _ heq with rfl | rfl <;> simp
      · rcases suffix_phase_inl _ _ _ heq with rfl | rfl <;> simp

/-- C3: a seconds field of 60 is supposed to yield the distinct
`UT_ERR_LEAP_SECOND` error, but both modes actually return
`UT_ERR_OUT_OF_RANGE` on `"2024-12-14T03:13:60Z"`, and no input at all
can reach the leap-second branch (the range check precedes it). -/
theorem claim_C3 :
    ut_parse_strict (some (("2024-12-14T03:13:60Z").toList)) (some 0) =
      (UT_ERR_OUT_OF_RANGE, some 0) ∧
    ut_parse_lenient (some (("2024-12-14T03:13:60Z").toList)) (some 0) =
      (UT_ERR_OUT_OF_RANGE, some 0) ∧
    (∀ (str : Option (List Char)) (out : Option Int) (strict : Bool),
      (parse_timestamp str out strict).1 ≠ UT_ERR_LEAP_SECOND) :=
  ⟨by decide, by decide, parse_timestamp_never_leap⟩

theorem dc_spec (d : Int) (h0 : 0 ≤ d) (h9 : d ≤ 9) :
    (dc d).toNat = 48 + d.toNat := by
  interval_cases d <;> rfl

theorem parseIntAux_digits : ∀ (l rest : List Char) (acc : Int),
    (∀ c ∈ l, 48 ≤ c.toNat ∧ c.toNat ≤ 57) →
    parseIntAux (l ++ rest) l.length acc =
      l.foldl (fun a c => a * 10 + ((c.toNat : Int) - 48)) acc := by
  intro l
  induction l with
  | nil => intro rest acc h; simp [parseIntAux]
  | cons c cs ih =>
    intro rest acc h
    have hc := h c (by simp)
    have hcs : ∀ x ∈ cs, 48 ≤ x.toNat ∧ x.toNat ≤ 57 := fun x hx => h x (by simp [hx])
    simp only [List.cons_append, List.length_cons, parseIntAux, List.foldl_cons]
    rw [if_neg (by simp only [Bool.or_eq_true, decide_eq_true_eq, not_or, not_lt]; omega)]
    exact ih rest _ hcs

theorem parse_int_dig2 (v : Int) (rest : List Char) (h0 : 0 ≤ v) (h : v ≤ 99) :
    ut_internal_parse_int (dig2 v ++ rest) 2 = v := by
  have e1 : v.tdiv 10 = v / 10 := Int.tdiv_eq_ediv h0 (by norm_num)
  have e2 : v.tmod 10 = v % 10 := Int.tmod_eq_emod h0 (by norm_num)
  have d1 : (dc (v.tdiv 10)).toNat = 48 + (v / 10).toNat := by
    rw [e1]; exact dc_spec _ (by omega) (by omega)
  have d2 : (dc (v.tmod 10)).toNat = 48 + (v % 10).toNat := by
    rw [e2]; exact dc_spec _ (by omega) (by omega)
  have hd : ∀ c ∈ dig2 v, 48 ≤ c.toNat ∧ c.toNat ≤ 57 := by
    intro c hc
    simp only [dig2, List.mem_cons, List.not_mem_nil, or_false] at hc
    rcases hc with rfl | rfl
    · rw [d1]; omega
    · rw [d2]; omega
  have hlen : (dig2 v).length = 2 := rfl
  have := parseIntAux_digits (dig2 v) rest 0 hd
  rw [hlen] at this
  unfold ut_internal_parse_int
  rw [this]
  simp only [dig2, List.foldl_cons, List.foldl_nil]
  rw [d1, d2]
  omega

theorem parse_int_dig4 (v : Int) (rest : List Char) (h0 : 0 ≤ v) (h : v ≤ 9999) :
    ut_internal_parse_int (dig4 v ++ rest) 4 = v := by
  have e1 : v.tdiv 1000 = v / 1000 := Int.tdiv_eq_ediv h0 (by norm_num)
  have e2 : v.tdiv 100 = v / 100 := Int.tdiv_eq_ediv h0 (by norm_num)
  have e3 : v.tdiv 10 = v / 10 := Int.tdiv_eq_ediv h0 (by norm_num)
  have e4 : v.tmod 10 = v % 10 := Int.tmod_eq_emod h0 (by norm_num)
  have e5 : (v / 100).tmod 10 = v / 100 % 10 :=
    Int.tmod_eq_emod (by positivity) (by norm_num)
  have e6 : (v / 10).tmod 10 = v / 10 % 10 :=
    Int.tmod_eq_emod (by positivity) (by norm_num)
  have d1 : (dc (v.tdiv 1000)).toNat = 48 + (v / 1000).toNat := by
    rw [e1]; exact dc_spec _ (by omega) (by omega)
  have d2 : (dc ((v.tdiv 100).tmod 10)).toNat = 48 + (v / 100 % 10).toNat := by
    rw [e2, e5]; exact dc_spec _ (by omega) (by omega)
  have d3 : (dc ((v.tdiv 10).tmod 10)).toNat = 48 + (v / 10 % 10).toNat := by
    rw [e3, e6]; exact dc_spec _ (by omega) (by omega)
  have d4 : (dc (v.tmod 10)).toNat = 48 + (v % 10).toNat := by
    rw [e4]; exact dc_spec _ (by omega) (by omega)
  have hd : ∀ c ∈ dig4 v, 48 ≤ c.toNat ∧ c.toNat ≤ 57 := by
    intro c hc
    simp only [dig4, List.mem_cons, List.not_mem_nil, or_false] at hc
    rcases hc with rfl | rfl | rfl | rfl
    · rw [d1]; omega
    · rw [d2]; omega
    · rw [d3]; omega
    · rw [d4]; omega
  have hlen : (dig4 v).length = 4 := rfl
  have := parseIntAux_digits (dig4 v) rest 0 hd
  rw [hlen] at this
  unfold ut_internal_parse_int
  rw [this]
  simp only [dig4, List.foldl_cons, List.foldl_nil]
  rw [d1, d2, d3, d4]
  omega

theorem digitsVal_append_one (xs : List Char) (c : Char) :
    digitsVal (xs ++ [c]) = digitsVal xs * 10 + ((c.toNat : Int) - 48) := by
  simp [digitsVal, List.foldl_append]

theorem digitsVal_nonneg_aux : ∀ (l : List Char) (acc : Int),
    (∀ c ∈ l, 48 ≤ c.toNat) → 0 ≤ acc →
    0 ≤ l.foldl (fun a c => a * 10 + ((c.toNat : Int) - 48)) acc := by
  intro l
  induction l with
  | nil => intro acc _ h; simpa using h
  | cons c cs ih =>
    intro acc h hacc
    have hc := h c (by simp)
    simp only [List.foldl_cons]
    exact ih _ (fun x hx => h x (by simp [hx])) (by omega)

theorem digitsVal_nonneg (l : List Char) (h : ∀ c ∈ l, 48 ≤ c.toNat) : 0 ≤ digitsVal l :=
  digitsVal_nonneg_aux l 0 h le_rfl

theorem stripRevAux_spec : ∀ (r : List Char), r ≠ [] →
    1 ≤ (stripRevAux r).length ∧ (stripRevAux r).length ≤ r.length ∧
    (∀ c ∈ stripRevAux r, c ∈ r) ∧
    digitsVal ((stripRevAux r).reverse) * 10 ^ (r.length - (stripRevAux r).length) =
      digitsVal r.reverse := by
  intro r
  induction r with
  | nil => intro h; exact absurd rfl h
  | cons c rest ih =>
    intro _
    by_cases hrest : rest = []
    · subst hrest
      simp [stripRevAux]
    · by_cases hc : c = '0'
      · have hstep : stripRevAux (c :: rest) = stripRevAux rest := by
          simp [stripRevAux, hc, hrest]
        obtain ⟨ih1, ih2, ih3, ih4⟩ := ih hrest
        rw [hstep]
        refine ⟨ih1, by simp; omega, fun x hx => by simp [ih3 x hx], ?_⟩
        have hlen : (c :: rest).length - (stripRevAux rest).length =
            (rest.length - (stripRevAux rest).length) + 1 := by
          simp only [List.length_cons]; omega
        rw [hlen, pow_succ, show digitsVal (stripRevAux rest).reverse *
            (10 ^ (rest.length - (stripRevAux rest).length) * 10) =
            digitsVal (stripRevAux rest).reverse *
            10 ^ (rest.length - (stripRevAux rest).length) * 10 by ring, ih4]
        subst hc
        rw [show ('0' :: rest).reverse = rest.reverse ++ ['0'] by simp,
          digitsVal_append_one]
        norm_num [show (('0'.toNat : Int)) = 48 from rfl]
      · have hstep : stripRevAux (c :: rest) = c :: rest := by
          simp [stripRevAux, hc]
        rw [hstep]
        exact ⟨by simp, le_rfl, fun x hx => hx, by norm_num⟩

theorem dc_spec_int (d : Int) (h0 : 0 ≤ d) (h9 : d ≤ 9) :
    (((dc d).toNat : Int)) = 48 + d := by
  interval_cases d <;> rfl

theorem dig9_spec (f : Int) (h0 : 0 ≤ f) (h9 : f ≤ 999999999) :
    (∀ c ∈ dig9 f, 48 ≤ c.toNat ∧ c.toNat ≤ 57) ∧ digitsVal (dig9 f) = f := by
  have key : ∀ (p : Int), 0 < p → (f.tdiv p).tmod 10 = f / p % 10 := fun p hp => by
    rw [Int.tdiv_eq_ediv h0 (le_of_lt hp),
      Int.tmod_eq_emod (Int.ediv_nonneg h0 (le_of_lt hp)) (by norm_num)]
  have e0 : f.tmod 10 = f % 10 := Int.tmod_eq_emod h0 (by norm_num)
  have hdig : dig9 f = [dc (f / 100000000 % 10), dc (f / 10000000 % 10),
      dc (f / 1000000 % 10), dc (f / 100000 % 10), dc (f / 10000 % 10), dc (f / 1000 % 10),
      dc (f / 100 % 10), dc (f / 10 % 10), dc (f % 10)] := by
    unfold dig9
    rw [key 100000000 (by norm_num), key 10000000 (by norm_num), key 1000000 (by norm_num),
      key 100000 (by norm_num), key 10000 (by norm_num), key 1000 (by norm_num),
      key 100 (by norm_num), key 10 (by norm_num), e0]
  clear key e0
  rw [hdig]
  constructor
  · intro c hc
    simp only [List.mem_cons, List.not_mem_nil, or_false] at hc
    have hb : ∀ d : Int, 0 ≤ d → d ≤ 9 → 48 ≤ (dc d).toNat ∧ (dc d).toNat ≤ 57 := by
      intro d hd0 hd9
      interval_cases d <;> exact ⟨by decide, by decide⟩
    rcases hc with rfl | rfl | rfl | rfl | rfl | rfl | rfl | rfl | rfl <;>
      exact hb _ (by omega) (by omega)
  · simp only [digitsVal, List.foldl_cons, List.foldl_nil]
    rw [dc_spec_int (f / 100000000 % 10) (by omega) (by omega),
      dc_spec_int (f / 10000000 % 10) (by omega) (by omega),
      dc_spec_int (f / 1000000 % 10) (by omega) (by omega),
      dc_spec_int (f / 100000 % 10) (by omega) (by omega),
      dc_spec_int (f / 10000 % 10) (by omega) (by omega),
      dc_spec_int (f / 1000 % 10) (by omega) (by omega),
      dc_spec_int (f / 100 % 10) (by omega) (by omega),
      dc_spec_int (f / 10 % 10) (by omega) (by omega),
      dc_spec_int (f % 10) (by omega) (by omega)]
    omega

theorem fracMultiplier_pow (len : Nat) (h1 : 1 ≤ len) (h9 : len ≤ 9) :
    fracMultiplier len = 10 ^ (9 - len) := by
  interval_cases len <;> rfl

theorem parse_fraction_digits (l : List Char) (h1 : 1 ≤ l.length) (h9 : l.length ≤ 9)
    (hd : ∀ c ∈ l, 48 ≤ c.toNat ∧ c.toNat ≤ 57) :
    ut_internal_parse_fraction l l.length = digitsVal l * 10 ^ (9 - l.length) := by
  have hv : parseIntAux l l.length 0 = digitsVal l := by
    have := parseIntAux_digits l [] 0 hd
    simpa [digitsVal] using this
  have hnn : 0 ≤ digitsVal l := digitsVal_nonneg l (fun c hc => (hd c hc).1)
  unfold ut_internal_parse_fraction
  rw [if_neg (by simp only [Bool.or_eq_true, decide_eq_true_eq, not_or, not_lt]; omega)]
  dsimp only
  rw [hv, if_neg (by omega), fracMultiplier_pow l.length h1 h9]

theorem strip_dig9_spec (f : Int) (h1 : 1 ≤ f) (h9 : f ≤ 999999999) :
    1 ≤ (stripTrailingZeros (dig9 f)).length ∧ (stripTrailingZeros (dig9 f)).length ≤ 9 ∧
    (∀ c ∈ stripTrailingZeros (dig9 f), 48 ≤ c.toNat ∧ c.toNat ≤ 57) ∧
    ut_internal_parse_fraction (stripTrailingZeros (dig9 f))
      (stripTrailingZeros (dig9 f)).length = f := by
  obtain ⟨hd, hv⟩ := dig9_spec f (by omega) h9
  have hlen9 : (dig9 f).length = 9 := rfl
  have hrne : (dig9 f).reverse ≠ [] := by
    intro hcontra
    have := congrArg List.length hcontra
    simp [hlen9] at this
  obtain ⟨s1, s2, s3, s4⟩ := stripRevAux_spec (dig9 f).reverse hrne
  have hstrip : stripTrailingZeros (dig9 f) = (stripRevAux (dig9 f).reverse).reverse := rfl
  have hslen : (stripTrailingZeros (dig9 f)).length = (stripRevAux (dig9 f).reverse).length := by
    rw [hstrip, List.length_reverse]
  have hrlen : (dig9 f).reverse.length = 9 := by rw [List.length_reverse, hlen9]
  have hmem : ∀ c ∈ stripTrailingZeros (dig9 f), 48 ≤ c.toNat ∧ c.toNat ≤ 57 := by
    intro c hc
    rw [hstrip, List.mem_reverse] at hc
    have := s3 c hc
    rw [List.mem_reverse] at this
    exact hd c this
  refine ⟨by omega, by omega, hmem, ?_⟩
  have hval : digitsVal (stripTrailingZeros (dig9 f)) *
      10 ^ (9 - (stripTrailingZeros (dig9 f)).length) = f := by
    have h4 := s4
    rw [List.reverse_reverse] at h4
    rw [hstrip, List.length_reverse, ← hrlen, h4, hv]
  rw [parse_fraction_digits _ (by omega) (by omega) hmem, hval]

theorem spanDigits_append (ds : List Char) (z : Char) (r : List Char)
    (hd : ∀ c ∈ ds, 48 ≤ c.toNat ∧ c.toNat ≤ 57) (hz : ¬ (48 ≤ z.toNat ∧ z.toNat ≤ 57)) :
    spanDigits (ds ++ z :: r) = (ds, z :: r) := by
  induction ds with
  | nil => simp [spanDigits, hz]
  | cons c cs ih =>
    have hc := hd c (by simp)
    have hcs : ∀ x ∈ cs, 48 ≤ x.toNat ∧ x.toNat ≤ 57 := fun x hx => hd x (by simp [hx])
    simp only [List.cons_append, spanDigits, hc, and_self, if_true, List.append_eq, ih hcs]

theorem spanDigits_all (ds : List Char)
    (hd : ∀ c ∈ ds, 48 ≤ c.toNat ∧ c.toNat ≤ 57) :
    spanDigits ds = (ds, []) := by
  induction ds with
  | nil => rfl
  | cons c cs ih =>
    have hc := hd c (by simp)
    have hcs : ∀ x ∈ cs, 48 ≤ x.toNat ∧ x.toNat ≤ 57 := fun x hx => hd x (by simp [hx])
    simp only [spanDigits, hc, and_self, if_true, List.append_eq, ih hcs]

/-- Evaluation of `parse_timestamp` on a canonically shaped input: the
19 mandatory characters rendered from numeric fields, followed by an
arbitrary tail.  The separator checks pass, the six fields read back,
and parsing continues with the fraction and suffix phases on the tail. -/
theorem parse_template (y mo d h mi s : Int) (tail : List Char) (v : Int) (strict : Bool)
    (hy : 0 ≤ y) (hy9 : y ≤ 9999) (hmo : 0 ≤ mo) (hmo9 : mo ≤ 99)
    (hd : 0 ≤ d) (hd9 : d ≤ 99) (hh : 0 ≤ h) (hh9 : h ≤ 99)
    (hmi : 0 ≤ mi) (hmi9 : mi ≤ 99) (hs : 0 ≤ s) (hs9 : s ≤ 99) :
    parse_timestamp (some (dig4 y ++ '-' :: dig2 mo ++ '-' :: dig2 d ++ 'T' :: dig2 h ++
        ':' :: dig2 mi ++ ':' :: dig2 s ++ tail)) (some v) strict =
      (if h > 23 ∨ mi > 59 ∨ s > 59 then (UT_ERR_OUT_OF_RANGE, some v)
      else if s = 60 then (UT_ERR_LEAP_SECOND, some v)
      else if ¬ ut_internal_validate_date y mo d then (UT_ERR_INVALID_DATE, some v)
      else match frac_phase tail strict with
        | .inl e => (e, some v)
        | .inr fr => match suffix_phase fr.2 strict with
          | .inl e => (e, some v)
          | .inr rem => if rem ≠ [] then (UT_ERR_INVALID_FORMAT, some v)
            else (UT_OK, some (ut_internal_to_nanos y mo d h mi s fr.1))) := by
  set S := dig4 y ++ '-' :: dig2 mo ++ '-' :: dig2 d ++ 'T' :: dig2 h ++
    ':' :: dig2 mi ++ ':' :: dig2 s ++ tail with hS
  have hlen : S.length = 19 + tail.length := by
    rw [hS]; simp [dig4, dig2]; omega
  have g4 : getc S 4 = '-' := rfl
  have g7 : getc S 7 = '-' := rfl
  have g10 : getc S 10 = 'T' := rfl
  have g13 : getc S 13 = ':' := rfl
  have g16 : getc S 16 = ':' := rfl
  have p1 : ut_internal_parse_int S 4 = y := parse_int_dig4 y _ hy hy9
  have p2 : ut_internal_parse_int (S.drop 5) 2 = mo := by
    have e : S.drop 5 = dig2 mo ++ ('-' :: dig2 d ++ 'T' :: dig2 h ++
      ':' :: dig2 mi ++ ':' :: dig2 s ++ tail) := rfl
    rw [e]; exact parse_int_dig2 mo _ hmo hmo9
  have p3 : ut_internal_parse_int (S.drop 8) 2 = d := by
    have e : S.drop 8 = dig2 d ++ ('T' :: dig2 h ++
      ':' :: dig2 mi ++ ':' :: dig2 s ++ tail) := rfl
    rw [e]; exact parse_int_dig2 d _ hd hd9
  have p4 : ut_internal_parse_int (S.drop 11) 2 = h := by
    have e : S.drop 11 = dig2 h ++ (':' :: dig2 mi ++ ':' :: dig2 s ++ tail) := rfl
    rw [e]; exact parse_int_dig2 h _ hh hh9
  have p5 : ut_internal_parse_int (S.drop 14) 2 = mi := by
    have e : S.drop 14 = dig2 mi ++ (':' :: dig2 s ++ tail) := rfl
    rw [e]; exact parse_int_dig2 mi _ hmi hmi9
  have p6 : ut_internal_parse_int (S.drop 17) 2 = s := by
    have e : S.drop 17 = dig2 s ++ tail := rfl
    rw [e]; exact parse_int_dig2 s _ hs hs9
  have hdrop : S.drop 19 = tail := rfl
  unfold parse_timestamp
  dsimp only
  rw [if_neg (by rw [hlen]; omega)]
  rw [if_neg (by simp [g4, g7, g10, g13, g16])]
  simp only [p1, p2, p3, p4, p5, p6, hdrop]
  rw [if_neg (by omega)]

theorem validate_date_true (y mo d : Int) (hy : 0 ≤ y) (hy9 : y ≤ 9999)
    (hmo : 1 ≤ mo) (hmo9 : mo ≤ 12) (hd : 1 ≤ d)
    (hd9 : d ≤ ut_internal_days_in_month y mo) :
    ut_internal_validate_date y mo d = true := by
  unfold ut_internal_validate_date
  rw [if_neg (by simp only [Bool.or_eq_true, decide_eq_true_eq, not_or, not_lt]; omega)]
  rw [if_neg (by simp only [Bool.or_eq_true, decide_eq_true_eq, not_or, not_lt]; omega)]
  rw [if_neg (by simp only [Bool.or_eq_true, decide_eq_true_eq, not_or, not_lt]; omega)]

theorem frac_phase_digits (ds : List Char) (z : Char) (r : List Char) (strict : Bool)
    (h1 : 1 ≤ ds.length) (h9 : ds.length ≤ 9)
    (hd : ∀ c ∈ ds, 48 ≤ c.toNat ∧ c.toNat ≤ 57) (hz : ¬ (48 ≤ z.toNat ∧ z.toNat ≤ 57)) :
    frac_phase ('.' :: (ds ++ z :: r)) strict =
      .inr (digitsVal ds * 10 ^ (9 - ds.length), z :: r) := by
  have hspan := spanDigits_append ds z r hd hz
  have hval := parse_fraction_digits ds h1 h9 hd
  have hnn : 0 ≤ digitsVal ds := digitsVal_nonneg ds (fun c hc => (hd c hc).1)
  have hpow : (0:Int) < 10 ^ (9 - ds.length) := by positivity
  simp only [frac_phase, hspan]
  rw [if_neg (by omega), if_neg (by omega)]
  rw [hval, if_neg (by push_neg; exact mul_nonneg hnn (le_of_lt hpow))]

/-- C1: parsing the canonical text of any 64-bit instant in strict mode
recovers exactly that instant, with or without a fractional component
(the formatter's trailing-zero stripping is undone by the parser's
right-padding). -/
theorem claim_C1 (t : Int)
    (h1 : -9223372036854775808 ≤ t) (h2 : t < 9223372036854775808) (v : Int) :
    parse_timestamp (some (ut_format_str t true)) (some v) true = (UT_OK, some t) := by
  obtain ⟨hf0, hf9, hh0, hh9, hm0, hm9, hs0, hs9, hmo1, hmo2, hd1, hd2, hback⟩ :=
    ut_internal_from_nanos_spec t
  obtain ⟨hy1, hy2⟩ := from_nanos_year_range t h1 h2
  set b := ut_internal_from_nanos t with hb
  have hdim := dim_bounds b.year b.month hmo1 hmo2
  have hval := validate_date_true b.year b.month b.day (by omega) (by omega) hmo1 hmo2 hd1 hd2
  by_cases hfrac : b.frac > 0
  · have hfs : ut_format_str t true = dig4 b.year ++ '-' :: dig2 b.month ++ '-' :: dig2 b.day ++
        'T' :: dig2 b.hour ++ ':' :: dig2 b.minute ++ ':' :: dig2 b.second ++
        ('.' :: stripTrailingZeros (dig9 b.frac) ++ ['Z']) := by
      simp only [ut_format_str, ← hb]
      rw [if_pos (by simp [hfrac])]
      simp [List.append_assoc]
    obtain ⟨sl1, sl9, sdig, sval⟩ := strip_dig9_spec b.frac (by omega) (by omega)
    set ds := stripTrailingZeros (dig9 b.frac) with hds
    rw [hfs, parse_template b.year b.month b.day b.hour b.minute b.second _ v true
      (by omega) (by omega) (by omega) (by omega) (by omega) (by omega)
      (by omega) (by omega) (by omega) (by omega) (by omega) (by omega)]
    rw [if_neg (by omega), if_neg (by omega), if_neg (by simp [hval])]
    rw [List.cons_append, frac_phase_digits ds 'Z' [] true sl1 sl9 sdig (by decide)]
    dsimp only
    rw [show suffix_phase ['Z'] true = Sum.inr [] from rfl]
    dsimp only
    rw [if_neg (by simp)]
    have hfr : digitsVal ds * 10 ^ (9 - ds.length) = b.frac := by
      have hpf := parse_fraction_digits ds sl1 sl9 sdig
      rw [sval] at hpf
      exact hpf.symm
    rw [hfr, hback]
  · have hfs : ut_format_str t true = dig4 b.year ++ '-' :: dig2 b.month ++ '-' :: dig2 b.day ++
        'T' :: dig2 b.hour ++ ':' :: dig2 b.minute ++ ':' :: dig2 b.second ++ ['Z'] := by
      simp only [ut_format_str, ← hb]
      rw [if_neg (by simp; omega)]
    rw [hfs, parse_template b.year b.month b.day b.hour b.minute b.second _ v true
      (by omega) (by omega) (by omega) (by omega) (by omega) (by omega)
      (by omega) (by omega) (by omega) (by omega) (by omega) (by omega)]
    rw [if_neg (by omega), if_neg (by omega), if_neg (by simp [hval])]
    rw [show frac_phase ['Z'] true = Sum.inr (0, ['Z']) from rfl]
    dsimp only
    rw [show suffix_phase ['Z'] true = Sum.inr [] from rfl]
    dsimp only
    rw [if_neg (by simp)]
    have hzero : ut_internal_to_nanos b.year b.month b.day b.hour b.minute b.second 0 = t := by
      rw [show (0 : Int) = b.frac from by omega]
      exact hback
    rw [hzero]

/-- Witness for C1 at an instant with a non-zero fractional component. -/
theorem claim_C1_witness :
    parse_timestamp (some (ut_format_str 1734146001123456789 true)) (some 0) true =
      (UT_OK, some 1734146001123456789) :=
  claim_C1 1734146001123456789 (by decide) (by decide) 0

/-! ### ISO week-date lemmas -/

theorem tmod_fix (a : Int) {b : Int} (hb : 0 < b) :
    (if a.tmod b < 0 then a.tmod b + b else a.tmod b) = a % b := by
  have h := congrArg Prod.snd (tdivmod_fix a hb)
  simpa [apply_ite Prod.snd] using h

theorem day_of_week_eq (n : Int) (hn : 0 ≤ n) :
    day_of_week_from_nanos n = (n / 86400000000000 + 3) % 7 := by
  unfold day_of_week_from_nanos
  rw [Int.tdiv_eq_ediv hn (by norm_num)]
  exact tmod_fix _ (by norm_num)

theorem iso_weekday_eq (n : Int) :
    (ut_to_iso_week n).2.2 = day_of_week_from_nanos n + 1 := by
  unfold ut_to_iso_week
  dsimp only
  repeat' split
  all_goals rfl

theorem days_from_epoch_from_nanos (n : Int) :
    days_from_epoch (ut_internal_from_nanos n).year (ut_internal_from_nanos n).month
      (ut_internal_from_nanos n).day = n / 1000000000 / 86400 := by
  rw [ut_internal_from_nanos_eq n]
  exact (civilFromDays_spec (n / 1000000000 / 86400)).2.2.2.2.1

/-- C8 (amended): for every non-negative instant the weekday returned by
`ut_to_iso_week` lies in 1..7 (Monday = 1) and equals the actual
day-of-week of the calendar date that `ut_internal_from_nanos` produces
for the same instant; and every instant during 2024-12-14 yields
iso-year 2024, week 50, weekday 6.  (For negative instants the
truncating day division in `day_of_week_from_nanos` rounds toward zero
and the returned weekday can disagree with the date's day-of-week, see
the counterexample.) -/
theorem claim_C8 :
    (∀ n : Int, 0 ≤ n →
      1 ≤ (ut_to_iso_week n).2.2 ∧ (ut_to_iso_week n).2.2 ≤ 7 ∧
      (ut_to_iso_week n).2.2 =
        specDayOfWeek (ut_internal_from_nanos n).year (ut_internal_from_nanos n).month
          (ut_internal_from_nanos n).day) ∧
    (∀ n : Int, 1734134400000000000 ≤ n → n < 1734220800000000000 →
      ut_to_iso_week n = (2024, 50, 6)) := by
  constructor
  · intro n hn
    have hdow := day_of_week_eq n hn
    have hwd := iso_weekday_eq n
    have hdfe := days_from_epoch_from_nanos n
    have hnest : n / 1000000000 / 86400 = n / 86400000000000 := by omega
    rw [hnest] at hdfe
    unfold specDayOfWeek
    rw [hwd, hdow, hdfe]
    have h1 : 0 ≤ (n / 86400000000000 + 3) % 7 := Int.emod_nonneg _ (by norm_num)
    have h2 : (n / 86400000000000 + 3) % 7 < 7 := Int.emod_lt_of_pos _ (by norm_num)
    omega
  · intro n hlo hhi
    have hn : (0:Int) ≤ n := by omega
    have hy : (ut_internal_from_nanos n).year = 2024 := by
      rw [ut_internal_from_nanos_eq n]
      dsimp only
      rw [show n / 1000000000 / 86400 = 20071 from by omega]
      decide
    have hmo : (ut_internal_from_nanos n).month = 12 := by
      rw [ut_internal_from_nanos_eq n]
      dsimp only
      rw [show n / 1000000000 / 86400 = 20071 from by omega]
      decide
    have hda : (ut_internal_from_nanos n).day = 14 := by
      rw [ut_internal_from_nanos_eq n]
      dsimp only
      rw [show n / 1000000000 / 86400 = 20071 from by omega]
      decide
    have hdow : day_of_week_from_nanos n = 5 := by
      rw [day_of_week_eq n hn, show n / 86400000000000 = 20071 from by omega]
      decide
    unfold ut_to_iso_week
    simp only [hy, hmo, hda, hdow]
    norm_num
    decide

/-- Counterexample for C8 as stated: at the instant -1 (during
1969-12-31, a Wednesday, actual weekday 3) `ut_to_iso_week` returns
weekday 4, because the truncating division assigns the instant to the
epoch day. -/
theorem claim_C8_counterexample :
    (ut_to_iso_week (-1)).2.2 = 4 ∧
    specDayOfWeek (ut_internal_from_nanos (-1)).year (ut_internal_from_nanos (-1)).month
      (ut_internal_from_nanos (-1)).day = 3 ∧
    ¬ ((ut_to_iso_week (-1)).2.2 =
        specDayOfWeek (ut_internal_from_nanos (-1)).year (ut_internal_from_nanos (-1)).month
          (ut_internal_from_nanos (-1)).day) := by
  refine ⟨by decide, by decide, by decide⟩

/-- Witness for C8 at the epoch instant and at the start of 2024-12-14. -/
theorem claim_C8_witness :
    (1 ≤ (ut_to_iso_week 0).2.2 ∧ (ut_to_iso_week 0).2.2 ≤ 7 ∧
      (ut_to_iso_week 0).2.2 =
        specDayOfWeek (ut_internal_from_nanos 0).year (ut_internal_from_nanos 0).month
          (ut_internal_from_nanos 0).day) ∧
    ut_to_iso_week 1734134400000000000 = (2024, 50, 6) :=
  ⟨claim_C8.1 0 (by decide), claim_C8.2 1734134400000000000 (by decide) (by decide)⟩

/-! ### Formatter length lemmas -/

theorem ut_format_str_length (nanos : Int) (incl : Bool) :
    20 ≤ (ut_format_str nanos incl).length ∧ (ut_format_str nanos incl).length ≤ 30 := by
  obtain ⟨hf0, hf9, _⟩ := ut_internal_from_nanos_spec nanos
  unfold ut_format_str
  dsimp only
  split
  · rename_i hcond
    have hfrac : 0 < (ut_internal_from_nanos nanos).frac := by
      simp only [Bool.and_eq_true, decide_eq_true_eq] at hcond
      exact hcond.2
    obtain ⟨s1, s9, _, _⟩ := strip_dig9_spec (ut_internal_from_nanos nanos).frac
      (by omega) (by omega)
    simp only [List.length_append, List.length_cons, dig4, dig2]
    simp only [List.length_cons, List.length_nil]
    omega
  · simp only [List.length_append, List.length_cons, dig4, dig2]
    simp only [List.length_cons, List.length_nil]
    omega

/-- C10: `ut_format` returns -1 exactly when the buffer is NULL or its
capacity is below `UT_MAX_STRING_LEN` (32) — even for capacities that
would hold the output — and otherwise writes the full NUL-terminated
string (no truncation) and returns its length, always between 20 and 30
characters. -/
theorem claim_C10 (nanos : Int)
    (h1 : -9223372036854775808 ≤ nanos) (h2 : nanos < 9223372036854775808)
    (bufNull : Bool) (bufSize : Nat) (incl : Bool) :
    ((ut_format nanos bufNull bufSize incl).1 = -1 ↔ (bufNull = true ∨ bufSize < 32)) ∧
    (¬ (bufNull = true ∨ bufSize < 32) →
      (ut_format nanos bufNull bufSize incl).2 = some (ut_format_str nanos incl) ∧
      (ut_format nanos bufNull bufSize incl).1 = (ut_format_str nanos incl).length ∧
      20 ≤ (ut_format_str nanos incl).length ∧ (ut_format_str nanos incl).length ≤ 30 ∧
      (ut_format_str nanos incl).length + 1 ≤ bufSize) := by
  obtain ⟨hl20, hl30⟩ := ut_format_str_length nanos incl
  unfold ut_format
  by_cases hcond : bufNull = true ∨ bufSize < 32
  · rw [if_pos (by rcases hcond with h | h <;> simp [h])]
    exact ⟨by simp [hcond], fun hc => absurd hcond hc⟩
  · push_neg at hcond
    rw [if_neg (by simp [hcond.1]; omega)]
    dsimp only
    constructor
    · constructor
      · intro hx
        exfalso
        omega
      · intro hx
        rcases hx with hx | hx
        · exact absurd hx hcond.1
        · omega
    · intro _
      refine ⟨?_, rfl, hl20, hl30, by omega⟩
      rw [List.take_of_length_le (by omega)]

/-- Witness for C10 at a concrete instant with fraction, a valid buffer
of exactly 32 bytes, and at an undersized capacity of 31. -/
theorem claim_C10_witness :
    ((ut_format 1734146001123456789 false 32 true).1 = -1 ↔ (false = true ∨ 32 < 32)) ∧
    (¬ (false = true ∨ (32:Nat) < 32) →
      (ut_format 1734146001123456789 false 32 true).2 =
        some (ut_format_str 1734146001123456789 true) ∧
      (ut_format 1734146001123456789 false 32 true).1 =
        (ut_format_str 1734146001123456789 true).length ∧
      20 ≤ (ut_format_str 1734146001123456789 true).length ∧
      (ut_format_str 1734146001123456789 true).length ≤ 30 ∧
      (ut_format_str 1734146001123456789 true).length + 1 ≤ 32) :=
  claim_C10 1734146001123456789 (by decide) (by decide) false 32 true

/-! ### Parsing after the sample base `2024-12-14T03:13:21` -/

theorem to_nanos_sample (f : Int) :
    ut_internal_to_nanos 2024 12 14 3 13 21 f = 1734146001000000000 + f := by
  have hd : days_from_epoch 2024 12 14 = 20071 := by decide
  simp only [ut_internal_to_nanos]
  rw [hd]
  norm_num

/-- Parsing `"2024-12-14T03:13:21" ++ tail`: the mandatory 19 characters
are accepted and parsing reduces to the fraction and suffix phases on
`tail`. -/
theorem parse_sample (tail : List Char) (v : Int) (strict : Bool) :
    parse_timestamp (some (("2024-12-14T03:13:21").toList ++ tail)) (some v) strict =
      (match frac_phase tail strict with
      | .inl e => (e, some v)
      | .inr fr =>
        match suffix_phase fr.2 strict with
        | .inl e => (e, some v)
        | .inr rem =>
          if rem ≠ [] then (UT_ERR_INVALID_FORMAT, some v)
          else (UT_OK, some (1734146001000000000 + fr.1))) := by
  rw [show ("2024-12-14T03:13:21").toList ++ tail = dig4 2024 ++ '-' :: dig2 12 ++
    '-' :: dig2 14 ++ 'T' :: dig2 3 ++ ':' :: dig2 13 ++ ':' :: dig2 21 ++ tail from rfl]
  rw [parse_template 2024 12 14 3 13 21 tail v strict (by norm_num) (by norm_num)
    (by norm_num) (by norm_num) (by norm_num) (by norm_num) (by norm_num) (by norm_num)
    (by norm_num) (by norm_num) (by norm_num) (by norm_num)]
  rw [if_neg (by norm_num), if_neg (by norm_num), if_neg (by decide)]
  simp only [to_nanos_sample]

theorem frac_phase_nondot (c : Char) (r : List Char) (strict : Bool) (h : c ≠ '.') :
    frac_phase (c :: r) strict = .inr (0, c :: r) := by
  unfold frac_phase
  split
  · rename_i heq
    rw [List.cons.injEq] at heq
    exact absurd heq.1 h
  · rfl

theorem suffix_phase_other (c : Char) (r : List Char) (strict : Bool)
    (h1 : c ≠ 'Z') (h2 : c ≠ 'z') (h3 : c ≠ '+') (h4 : c ≠ '-') :
    suffix_phase (c :: r) strict =
      if strict then .inl UT_ERR_INVALID_FORMAT else .inr (c :: r) := by
  unfold suffix_phase
  dsimp only
  rw [if_neg h1, if_neg h2, if_neg (by simp [h3, h4])]

/-- C5 (amended): at the designator position `Z` is accepted in both
modes; `z` only in lenient mode; a missing designator is rejected by
strict mode and accepted (UTC assumed) by lenient mode with the same
value; any other character is `UT_ERR_INVALID_FORMAT` in BOTH modes —
in lenient mode the character is left unconsumed and the
trailing-garbage check rejects it. -/
theorem claim_C5 :
    (∀ strict : Bool, parse_timestamp (some (("2024-12-14T03:13:21Z").toList)) (some 0) strict =
      (UT_OK, some 1734146001000000000)) ∧
    (parse_timestamp (some (("2024-12-14T03:13:21z").toList)) (some 0) true).1 =
      UT_ERR_INVALID_FORMAT ∧
    parse_timestamp (some (("2024-12-14T03:13:21z").toList)) (some 0) false =
      (UT_OK, some 1734146001000000000) ∧
    (parse_timestamp (some (("2024-12-14T03:13:21").toList)) (some 0) true).1 =
      UT_ERR_INVALID_FORMAT ∧
    parse_timestamp (some (("2024-12-14T03:13:21").toList)) (some 0) false =
      (UT_OK, some 1734146001000000000) ∧
    (∀ c : Char, c ≠ 'Z' → c ≠ 'z' → c ≠ '+' → c ≠ '-' →
      (parse_timestamp (some (("2024-12-14T03:13:21").toList ++ [c])) (some 0) true).1 =
        UT_ERR_INVALID_FORMAT ∧
      (parse_timestamp (some (("2024-12-14T03:13:21").toList ++ [c])) (some 0) false).1 =
        UT_ERR_INVALID_FORMAT) := by
  refine ⟨by intro strict; cases strict <;> decide, by decide, by decide, by decide, by decide,
    ?_⟩
  intro c h1 h2 h3 h4
  by_cases hdot : c = '.'
  · subst hdot
    exact ⟨by decide, by decide⟩
  · constructor
    · rw [parse_sample [c] 0 true, frac_phase_nondot c [] true hdot]
      dsimp only
      rw [suffix_phase_other c [] true h1 h2 h3 h4]
      rfl
    · rw [parse_sample [c] 0 false, frac_phase_nondot c [] false hdot]
      dsimp only
      rw [suffix_phase_other c [] false h1 h2 h3 h4]
      simp

/-- Counterexample for C5 as stated: the claim asserts lenient mode
accepts an arbitrary non-designator character at the designator
position, but `parse_lenient("2024-12-14T03:13:21X")` fails with
`UT_ERR_INVALID_FORMAT` (the unknown character is never consumed). -/
theorem claim_C5_counterexample :
    parse_timestamp (some (("2024-12-14T03:13:21X").toList)) (some 0) false =
      (UT_ERR_INVALID_FORMAT, some 0) ∧
    UT_ERR_INVALID_FORMAT ≠ UT_OK := by
  exact ⟨by decide, by decide⟩

/-- Witness for C5 at the concrete character `'#'`. -/
theorem claim_C5_witness :
    parse_timestamp (some (("2024-12-14T03:13:21").toList)) (some 0) false =
      (UT_OK, some 1734146001000000000) ∧
    (parse_timestamp (some (("2024-12-14T03:13:21#").toList)) (some 0) true).1 =
      UT_ERR_INVALID_FORMAT ∧
    (parse_timestamp (some (("2024-12-14T03:13:21#").toList)) (some 0) false).1 =
      UT_ERR_INVALID_FORMAT :=
  ⟨claim_C5.2.2.2.2.1,
   (claim_C5.2.2.2.2.2 '#' (by decide) (by decide) (by decide) (by decide)).1,
   (claim_C5.2.2.2.2.2 '#' (by decide) (by decide) (by decide) (by decide)).2⟩

theorem frac_phase_long (ds : List Char) (z : Char) (r : List Char) (strict : Bool)
    (h9 : 9 < ds.length) (hd : ∀ c ∈ ds, 48 ≤ c.toNat ∧ c.toNat ≤ 57)
    (hz : ¬ (48 ≤ z.toNat ∧ z.toNat ≤ 57)) :
    frac_phase ('.' :: (ds ++ z :: r)) strict =
      if strict then .inl UT_ERR_FRACTION_TOO_LONG
      else .inr (digitsVal (ds.take 9), z :: r) := by
  have ht : (ds.take 9).length = 9 := by simp [List.length_take]; omega
  have hd9 : ∀ c ∈ ds.take 9, 48 ≤ c.toNat ∧ c.toNat ≤ 57 :=
    fun c hc => hd c (List.mem_of_mem_take hc)
  have hnn : 0 ≤ digitsVal (ds.take 9) := digitsVal_nonneg _ (fun c hc => (hd9 c hc).1)
  have hval : ut_internal_parse_fraction (ds.take 9) 9 = digitsVal (ds.take 9) := by
    nth_rewrite 2 [← ht]
    rw [parse_fraction_digits (ds.take 9) (by omega) (by omega) hd9, ht]
    norm_num
  simp only [frac_phase, spanDigits_append ds z r hd hz]
  rw [if_neg (by omega), if_pos (by omega)]
  cases strict with
  | true => rfl
  | false =>
    simp only [Bool.false_eq_true, if_false]
    rw [hval, if_neg (by omega)]

/-- C6: after the mandatory 19 characters, `.` with zero digits is
`UT_ERR_INVALID_FORMAT` in both modes; more than 9 digits is
`UT_ERR_FRACTION_TOO_LONG` in strict mode while lenient mode truncates
to the first 9 digits (no rounding); 1-9 digits are right-padded to
nanoseconds, so `.5` is 500000000 ns and `.050` is 50000000 ns. -/
theorem claim_C6 :
    (∀ strict : Bool,
      (parse_timestamp (some (("2024-12-14T03:13:21.Z").toList)) (some 0) strict).1 =
        UT_ERR_INVALID_FORMAT ∧
      (parse_timestamp (some (("2024-12-14T03:13:21.").toList)) (some 0) strict).1 =
        UT_ERR_INVALID_FORMAT) ∧
    (∀ ds : List Char, 9 < ds.length → (∀ c ∈ ds, 48 ≤ c.toNat ∧ c.toNat ≤ 57) →
      (parse_timestamp (some (("2024-12-14T03:13:21").toList ++ '.' :: (ds ++ ['Z'])))
        (some 0) true).1 = UT_ERR_FRACTION_TOO_LONG ∧
      parse_timestamp (some (("2024-12-14T03:13:21").toList ++ '.' :: (ds ++ ['Z'])))
        (some 0) false = (UT_OK, some (1734146001000000000 + digitsVal (ds.take 9)))) ∧
    (∀ (ds : List Char) (strict : Bool), 1 ≤ ds.length → ds.length ≤ 9 →
      (∀ c ∈ ds, 48 ≤ c.toNat ∧ c.toNat ≤ 57) →
      parse_timestamp (some (("2024-12-14T03:13:21").toList ++ '.' :: (ds ++ ['Z'])))
        (some 0) strict =
        (UT_OK, some (1734146001000000000 + digitsVal ds * 10 ^ (9 - ds.length)))) ∧
    parse_timestamp (some (("2024-12-14T03:13:21.5Z").toList)) (some 0) true =
      (UT_OK, some 1734146001500000000) ∧
    parse_timestamp (some (("2024-12-14T03:13:21.050Z").toList)) (some 0) true =
      (UT_OK, some 1734146001050000000) := by
  refine ⟨by intro strict; cases strict <;> exact ⟨by decide, by decide⟩, ?_, ?_,
    by decide, by decide⟩
  · intro ds h9 hd
    constructor
    · rw [parse_sample ('.' :: (ds ++ ['Z'])) 0 true,
        frac_phase_long ds 'Z' [] true h9 hd (by decide)]
      rfl
    · rw [parse_sample ('.' :: (ds ++ ['Z'])) 0 false,
        frac_phase_long ds 'Z' [] false h9 hd (by decide)]
      rw [if_neg (by simp)]
      dsimp only
      rw [show suffix_phase ['Z'] false = Sum.inr [] from rfl]
      simp
  · intro ds strict h1 h9 hd
    rw [parse_sample ('.' :: (ds ++ ['Z'])) 0 strict,
      frac_phase_digits ds 'Z' [] strict h1 h9 hd (by decide)]
    dsimp only
    rw [show suffix_phase ['Z'] strict = Sum.inr [] from by cases strict <;> rfl]
    simp

/-- Witness for C6 with the 10-digit fraction `.1234567891` (truncated
by lenient mode to 123456789 ns) and the 2-digit fraction `.05`. -/
theorem claim_C6_witness :
    ((parse_timestamp (some (("2024-12-14T03:13:21").toList ++
        '.' :: (("1234567891").toList ++ ['Z']))) (some 0) true).1 =
      UT_ERR_FRACTION_TOO_LONG ∧
    parse_timestamp (some (("2024-12-14T03:13:21").toList ++
        '.' :: (("1234567891").toList ++ ['Z']))) (some 0) false =
      (UT_OK, some (1734146001000000000 + digitsVal (("1234567891").toList.take 9)))) ∧
    parse_timestamp (some (("2024-12-14T03:13:21").toList ++
        '.' :: (("05").toList ++ ['Z']))) (some 0) true =
      (UT_OK, some (1734146001000000000 +
        digitsVal (("05").toList) * 10 ^ (9 - (("05").toList).length))) :=
  ⟨claim_C6.2.1 (("1234567891").toList) (by decide) (by decide),
   claim_C6.2.2.1 (("05").toList) true (by decide) (by decide) (by decide)⟩

theorem parseIntAux_zero (l : List Char) (v : Int) : parseIntAux l 0 v = v := by
  cases l <;> rfl

theorem parseIntAux_cons (c : Char) (rest : List Char) (n : Nat) (v : Int) :
    parseIntAux (c :: rest) (n + 1) v =
      if c.toNat < 48 || 57 < c.toNat then -1
      else parseIntAux rest n (v * 10 + ((c.toNat : Int) - 48)) := rfl

theorem parse_int_dc2 (a b : Int) (r : List Char) (ha0 : 0 ≤ a) (ha9 : a ≤ 9)
    (hb0 : 0 ≤ b) (hb9 : b ≤ 9) :
    ut_internal_parse_int (dc a :: dc b :: r) 2 = 10 * a + b := by
  have hb1 : ∀ e : Int, 0 ≤ e → e ≤ 9 → 48 ≤ (dc e).toNat ∧ (dc e).toNat ≤ 57 := by
    intro e he0 he9
    interval_cases e <;> exact ⟨by decide, by decide⟩
  have hda := hb1 a ha0 ha9
  have hdb := hb1 b hb0 hb9
  have hia := dc_spec_int a ha0 ha9
  have hib := dc_spec_int b hb0 hb9
  unfold ut_internal_parse_int
  rw [show (2:Nat) = 1 + 1 from rfl, parseIntAux_cons,
    if_neg (by simp only [Bool.or_eq_true, decide_eq_true_eq, not_or, not_lt]; omega),
    show (1:Nat) = 0 + 1 from rfl, parseIntAux_cons,
    if_neg (by simp only [Bool.or_eq_true, decide_eq_true_eq, not_or, not_lt]; omega)]
  rw [parseIntAux_zero, hia, hib]
  ring

theorem parse_int2_bad (c0 c1 : Char) (r : List Char)
    (h : ¬ (48 ≤ c0.toNat ∧ c0.toNat ≤ 57) ∨ ¬ (48 ≤ c1.toNat ∧ c1.toNat ≤ 57)) :
    ut_internal_parse_int (c0 :: c1 :: r) 2 < 0 := by
  unfold ut_internal_parse_int
  rw [show (2:Nat) = 1 + 1 from rfl, parseIntAux_cons]
  by_cases h0 : 48 ≤ c0.toNat ∧ c0.toNat ≤ 57
  · rw [if_neg (by simp only [Bool.or_eq_true, decide_eq_true_eq, not_or, not_lt]; omega),
      show (1:Nat) = 0 + 1 from rfl, parseIntAux_cons]
    have h1 : ¬ (48 ≤ c1.toNat ∧ c1.toNat ≤ 57) := by tauto
    rw [if_pos (by simp only [Bool.or_eq_true, decide_eq_true_eq]; omega)]
    norm_num
  · rw [if_pos (by simp only [Bool.or_eq_true, decide_eq_true_eq]; omega)]
    norm_num

theorem suffix_phase_offset_wf (sign : Char) (hs : sign = '+' ∨ sign = '-')
    (a b c d : Int) (ha0 : 0 ≤ a) (ha9 : a ≤ 9) (hb0 : 0 ≤ b) (hb9 : b ≤ 9)
    (hc0 : 0 ≤ c) (hc9 : c ≤ 9) (hd0 : 0 ≤ d) (hd9 : d ≤ 9) (strict : Bool) :
    suffix_phase (sign :: dc a :: dc b :: ':' :: dc c :: dc d :: []) strict =
      if 10 * a + b ≠ 0 ∨ 10 * c + d ≠ 0 then .inl UT_ERR_UNSUPPORTED_OFFSET
      else if strict then .inl UT_ERR_UNSUPPORTED_OFFSET
      else .inr [] := by
  have e1 : ∀ x : Char, (x :: dc a :: dc b :: ':' :: dc c :: dc d :: []).drop 1 =
      dc a :: dc b :: (':' :: dc c :: dc d :: []) := fun x => rfl
  have e4 : ∀ x : Char, (x :: dc a :: dc b :: ':' :: dc c :: dc d :: []).drop 4 =
      dc c :: dc d :: [] := fun x => rfl
  have e6 : ∀ x : Char, (x :: dc a :: dc b :: ':' :: dc c :: dc d :: []).drop 6 = [] :=
    fun x => rfl
  have p1 : ut_internal_parse_int (dc a :: dc b :: (':' :: dc c :: dc d :: [])) 2 =
      10 * a + b := parse_int_dc2 a b _ ha0 ha9 hb0 hb9
  have p2 : ut_internal_parse_int (dc c :: dc d :: []) 2 = 10 * c + d :=
    parse_int_dc2 c d _ hc0 hc9 hd0 hd9
  rcases hs with rfl | rfl <;>
  · unfold suffix_phase
    dsimp only
    rw [if_neg (by decide), if_neg (by decide), if_pos (by decide),
      if_neg (by simp), if_neg (fun hcon => hcon rfl), e1, e4, p1, p2,
      if_neg (by omega), e6]

theorem suffix_phase_offset_short (sign : Char) (hs : sign = '+' ∨ sign = '-')
    (tail : List Char) (hlen : tail.length < 5) (strict : Bool) :
    suffix_phase (sign :: tail) strict = .inl UT_ERR_INVALID_FORMAT := by
  rcases hs with rfl | rfl <;>
  · unfold suffix_phase
    dsimp only
    rw [if_neg (by decide), if_neg (by decide), if_pos (by decide),
      if_pos (by simp only [List.length_cons]; omega)]

theorem suffix_phase_offset_nocolon (sign : Char) (hs : sign = '+' ∨ sign = '-')
    (t0 t1 t2 t3 t4 : Char) (rest : List Char) (ht2 : t2 ≠ ':') (strict : Bool) :
    suffix_phase (sign :: t0 :: t1 :: t2 :: t3 :: t4 :: rest) strict =
      .inl UT_ERR_INVALID_FORMAT := by
  have g3 : ∀ x : Char, getc (x :: t0 :: t1 :: t2 :: t3 :: t4 :: rest) 3 = t2 :=
    fun x => rfl
  rcases hs with rfl | rfl <;>
  · unfold suffix_phase
    dsimp only
    rw [if_neg (by decide), if_neg (by decide), if_pos (by decide),
      if_neg (by simp only [List.length_cons]; omega), if_pos (by rw [g3]; exact ht2)]

theorem suffix_phase_offset_nondigit (sign : Char) (hs : sign = '+' ∨ sign = '-')
    (h0c h1c m0c m1c : Char) (rest : List Char)
    (hbad : ¬ (48 ≤ h0c.toNat ∧ h0c.toNat ≤ 57) ∨ ¬ (48 ≤ h1c.toNat ∧ h1c.toNat ≤ 57) ∨
      ¬ (48 ≤ m0c.toNat ∧ m0c.toNat ≤ 57) ∨ ¬ (48 ≤ m1c.toNat ∧ m1c.toNat ≤ 57))
    (strict : Bool) :
    suffix_phase (sign :: h0c :: h1c :: ':' :: m0c :: m1c :: rest) strict =
      .inl UT_ERR_INVALID_FORMAT := by
  have e1 : ∀ x : Char, (x :: h0c :: h1c :: ':' :: m0c :: m1c :: rest).drop 1 =
      h0c :: h1c :: (':' :: m0c :: m1c :: rest) := fun x => rfl
  have e4 : ∀ x : Char, (x :: h0c :: h1c :: ':' :: m0c :: m1c :: rest).drop 4 =
      m0c :: m1c :: rest := fun x => rfl
  have hbad2 : ut_internal_parse_int (h0c :: h1c :: (':' :: m0c :: m1c :: rest)) 2 < 0 ∨
      ut_internal_parse_int (m0c :: m1c :: rest) 2 < 0 := by
    rcases hbad with h | h | h | h
    · exact Or.inl (parse_int2_bad _ _ _ (Or.inl h))
    · exact Or.inl (parse_int2_bad _ _ _ (Or.inr h))
    · exact Or.inr (parse_int2_bad _ _ _ (Or.inl h))
    · exact Or.inr (parse_int2_bad _ _ _ (Or.inr h))
  rcases hs with rfl | rfl <;>
  · unfold suffix_phase
    dsimp only
    rw [if_neg (by decide), if_neg (by decide), if_pos (by decide),
      if_neg (by simp only [List.length_cons]; omega), if_neg (fun hcon => hcon rfl),
      e1, e4, if_pos hbad2]

/-- C4: a well-formed `±HH:MM` offset suffix is always
`UT_ERR_UNSUPPORTED_OFFSET` in strict mode (even `+00:00`); lenient mode
accepts exactly-zero offsets (`+00:00`, `-00:00`) and rejects every
non-zero offset with `UT_ERR_UNSUPPORTED_OFFSET`; fewer than 5
characters after the sign, a missing `:` separator, or a non-digit
offset field is `UT_ERR_INVALID_FORMAT` in both modes. -/
theorem claim_C4 :
    (∀ (sign : Char), (sign = '+' ∨ sign = '-') → ∀ a b c d : Int,
      0 ≤ a → a ≤ 9 → 0 ≤ b → b ≤ 9 → 0 ≤ c → c ≤ 9 → 0 ≤ d → d ≤ 9 →
      (parse_timestamp (some (("2024-12-14T03:13:21").toList ++
        sign :: dc a :: dc b :: ':' :: dc c :: dc d :: [])) (some 0) true).1 =
        UT_ERR_UNSUPPORTED_OFFSET ∧
      parse_timestamp (some (("2024-12-14T03:13:21").toList ++
        sign :: dc a :: dc b :: ':' :: dc c :: dc d :: [])) (some 0) false =
        (if a = 0 ∧ b = 0 ∧ c = 0 ∧ d = 0 then (UT_OK, some 1734146001000000000)
         else (UT_ERR_UNSUPPORTED_OFFSET, some 0))) ∧
    (∀ (sign : Char) (strict : Bool) (tail : List Char), (sign = '+' ∨ sign = '-') →
      tail.length < 5 →
      (parse_timestamp (some (("2024-12-14T03:13:21").toList ++ sign :: tail))
        (some 0) strict).1 = UT_ERR_INVALID_FORMAT) ∧
    (∀ (sign : Char) (strict : Bool) (t0 t1 t2 t3 t4 : Char) (rest : List Char),
      (sign = '+' ∨ sign = '-') → t2 ≠ ':' →
      (parse_timestamp (some (("2024-12-14T03:13:21").toList ++
        sign :: t0 :: t1 :: t2 :: t3 :: t4 :: rest)) (some 0) strict).1 =
        UT_ERR_INVALID_FORMAT) ∧
    (∀ (sign : Char) (strict : Bool) (h0c h1c m0c m1c : Char) (rest : List Char),
      (sign = '+' ∨ sign = '-') →
      (¬ (48 ≤ h0c.toNat ∧ h0c.toNat ≤ 57) ∨ ¬ (48 ≤ h1c.toNat ∧ h1c.toNat ≤ 57) ∨
       ¬ (48 ≤ m0c.toNat ∧ m0c.toNat ≤ 57) ∨ ¬ (48 ≤ m1c.toNat ∧ m1c.toNat ≤ 57)) →
      (parse_timestamp (some (("2024-12-14T03:13:21").toList ++
        sign :: h0c :: h1c :: ':' :: m0c :: m1c :: rest)) (some 0) strict).1 =
        UT_ERR_INVALID_FORMAT) := by
  refine ⟨?_, ?_, ?_, ?_⟩
  · intro sign hs a b c d ha0 ha9 hb0 hb9 hc0 hc9 hd0 hd9
    have hdot : sign ≠ '.' := by rcases hs with rfl | rfl <;> decide
    constructor
    · rw [parse_sample _ 0 true, frac_phase_nondot sign _ true hdot]
      dsimp only
      rw [suffix_phase_offset_wf sign hs a b c d ha0 ha9 hb0 hb9 hc0 hc9 hd0 hd9 true]
      by_cases hz : 10 * a + b ≠ 0 ∨ 10 * c + d ≠ 0
      · rw [if_pos hz]
      · rw [if_neg hz]
        rfl
    · rw [parse_sample _ 0 false, frac_phase_nondot sign _ false hdot]
      dsimp only
      rw [suffix_phase_offset_wf sign hs a b c d ha0 ha9 hb0 hb9 hc0 hc9 hd0 hd9 false]
      by_cases hz0 : a = 0 ∧ b = 0 ∧ c = 0 ∧ d = 0
      · rw [if_pos hz0, if_neg (by omega)]
        simp
      · rw [if_neg hz0, if_pos (by omega)]
  · intro sign strict tail hs hlen
    have hdot : sign ≠ '.' := by rcases hs with rfl | rfl <;> decide
    rw [parse_sample _ 0 strict, frac_phase_nondot sign _ strict hdot]
    dsimp only
    rw [suffix_phase_offset_short sign hs tail hlen strict]
  · intro sign strict t0 t1 t2 t3 t4 rest hs ht2
    have hdot : sign ≠ '.' := by rcases hs with rfl | rfl <;> decide
    rw [parse_sample _ 0 strict, frac_phase_nondot sign _ strict hdot]
    dsimp only
    rw [suffix_phase_offset_nocolon sign hs t0 t1 t2 t3 t4 rest ht2 strict]
  · intro sign strict h0c h1c m0c m1c rest hs hbad
    have hdot : sign ≠ '.' := by rcases hs with rfl | rfl <;> decide
    rw [parse_sample _ 0 strict, frac_phase_nondot sign _ strict hdot]
    dsimp only
    rw [suffix_phase_offset_nondigit sign hs h0c h1c m0c m1c rest hbad strict]

/-- Witness for C4 at `+00:00`, `+01:00`, a short offset `+00:0`, a
missing colon `+0000:`, and a non-digit field `+0a:00`. -/
theorem claim_C4_witness :
    ((parse_timestamp (some (("2024-12-14T03:13:21+00:00").toList)) (some 0) true).1 =
      UT_ERR_UNSUPPORTED_OFFSET ∧
     parse_timestamp (some (("2024-12-14T03:13:21+00:00").toList)) (some 0) false =
      (UT_OK, some 1734146001000000000)) ∧
    (parse_timestamp (some (("2024-12-14T03:13:21+01:00").toList)) (some 0) false =
      (UT_ERR_UNSUPPORTED_OFFSET, some 0)) ∧
    ((parse_timestamp (some (("2024-12-14T03:13:21+00:0").toList)) (some 0) true).1 =
      UT_ERR_INVALID_FORMAT) ∧
    ((parse_timestamp (some (("2024-12-14T03:13:21+00x00").toList)) (some 0) false).1 =
      UT_ERR_INVALID_FORMAT) ∧
    ((parse_timestamp (some (("2024-12-14T03:13:21+0a:00").toList)) (some 0) true).1 =
      UT_ERR_INVALID_FORMAT) := by
  have h1 := (claim_C4.1 '+' (Or.inl rfl) 0 0 0 0 (by norm_num) (by norm_num) (by norm_num)
    (by norm_num) (by norm_num) (by norm_num) (by norm_num) (by norm_num))
  have h2 := (claim_C4.1 '+' (Or.inl rfl) 0 1 0 0 (by norm_num) (by norm_num) (by norm_num)
    (by norm_num) (by norm_num) (by norm_num) (by norm_num) (by norm_num)).2
  have h3 := claim_C4.2.1 '+' true (("00:0").toList) (Or.inl rfl) (by decide)
  have h4 := claim_C4.2.2.1 '+' false '0' '0' 'x' '0' '0' [] (Or.inl rfl) (by decide)
  have h5 := claim_C4.2.2.2 '+' true '0' 'a' '0' '0' [] (Or.inl rfl)
    (Or.inr (Or.inl (by decide)))
  refine ⟨⟨?_, ?_⟩, ?_, ?_, ?_, ?_⟩
  · exact h1.1
  · have := h1.2
    norm_num at this
    exact this
  · have := h2
    norm_num at this
    exact this
  · exact h3
  · exact h4
  · exact h5
